import Mathlib

/-!
Verification development for the graph-based workflow orchestrator in
src/backend/main.py (topological scheduler, shared execution state,
parameter coercion, remote invocation client, fan-out pattern, and
recursive composite execution).

The Python code is shallowly embedded: JSON-ish runtime values become the
inductive type Value; Python dicts become association lists (Dict); the
network is an oracle of transport outcomes consumed one call at a time;
exceptions become Except values.  Recursion depth of composite execution
is bounded by an explicit fuel parameter; exhausting it models Python
raising RecursionError at the recursive call site.
-/

/-- JSON-like runtime values of the interpreter (string / number / boolean /
list / record / null).  Numbers are modelled as integers; the float branch of
the coercion layer is parameterised (see Ctx.pyFloat). -/
inductive Value where
  | null : Value
  | bool (b : Bool) : Value
  | int (n : Int) : Value
  | str (s : String) : Value
  | arr (xs : List Value) : Value
  | obj (fields : List (String × Value)) : Value
deriving Repr, Inhabited

/-- A Python dict with string keys, as an association list in insertion order. -/
abbrev Dict := List (String × Value)

/-- Python d[k] = v : overwrite the binding in place if the key exists
(keeping its position, as Python dicts do), else append at the end. -/
def dictSet (d : Dict) (k : String) (v : Value) : Dict :=
  if (d.lookup k).isSome then
    d.map (fun p => if p.1 = k then (k, v) else p)
  else d ++ [(k, v)]

/-- Python d.update(entries) : set every binding of entries, in order. -/
def dictUpdate (d : Dict) (entries : Dict) : Dict :=
  entries.foldl (fun acc p => dictSet acc p.1 p.2) d

/-- Python truthiness of a value. -/
def truthy : Value → Bool
  | .null => false
  | .bool b => b
  | .int n => n != 0
  | .str s => s ≠ ""
  | .arr xs => ¬ xs.isEmpty
  | .obj fs => ¬ fs.isEmpty

/-- Python obj.get(k) on a record: the bound value, or None when absent. -/
def objGet (fields : List (String × Value)) (k : String) : Value :=
  (fields.lookup k).getD .null

def Value.isNull : Value → Bool
  | .null => true
  | _ => false

/-- Python type(v).__name__ for our values. -/
def pyTypeName : Value → String
  | .null => "NoneType"
  | .bool _ => "bool"
  | .int _ => "int"
  | .str _ => "str"
  | .arr _ => "list"
  | .obj _ => "dict"

/-! ### Graph data model (WorkflowNode / WorkflowEdge, main.py lines 51-74) -/

structure WorkflowNodeData where
  label : String := ""
  agent : String
  method : String
deriving Repr, DecidableEq

structure WorkflowNode where
  id : String
  data : WorkflowNodeData
deriving Repr, DecidableEq

structure WorkflowEdge where
  source : String
  target : String
deriving Repr, DecidableEq

/-! ### Topological scheduler (main.py lines 241-263, Kahn's algorithm) -/

/-- The ids of the declared nodes, in declaration order. -/
def nodeIds (nodes : List WorkflowNode) : List String := nodes.map (·.id)

/-- The edges whose two endpoints both name declared nodes; the others are
dropped with a warning (main.py line 248-250). -/
def retainedEdges (nodes : List WorkflowNode) (edges : List WorkflowEdge) : List WorkflowEdge :=
  edges.filter (fun e => e.source ∈ nodeIds nodes && e.target ∈ nodeIds nodes)

/-- Python `successors[u]` after the edge pass: the targets of retained edges
out of u, in edge order. -/
def successorsOf (nodes : List WorkflowNode) (edges : List WorkflowEdge) (u : String) :
    List String :=
  ((retainedEdges nodes edges).filter (fun e => e.source = u)).map (·.target)

/-- Python dict comprehension at line 244: one (id, 0) entry per node id, first
occurrence order (a duplicate id re-assigns the same 0). -/
def initInDegree (nodes : List WorkflowNode) : List (String × Int) :=
  nodes.foldl (fun acc n => if (acc.lookup n.id).isSome then acc else acc ++ [(n.id, 0)]) []

/-- in_degree[k] += 1. -/
def bumpInDegree (d : List (String × Int)) (k : String) : List (String × Int) :=
  d.map (fun p => if p.1 = k then (p.1, p.2 + 1) else p)

/-- The in_degree dict after the edge pass (main.py lines 247-250). -/
def inDegreeAfterEdges (nodes : List WorkflowNode) (edges : List WorkflowEdge) :
    List (String × Int) :=
  (retainedEdges nodes edges).foldl (fun d e => bumpInDegree d e.target) (initInDegree nodes)

/-- Sum of the nonnegative parts of the in-degree table, used as the
termination measure of the Kahn loop. -/
def degSum (d : List (String × Int)) : Nat := (d.map (fun p => p.2.toNat)).sum

/-- in_degree[v] -= 1. -/
def decrKey (d : List (String × Int)) (v : String) : List (String × Int) :=
  d.map (fun p => if p.1 = v then (p.1, p.2 - 1) else p)

/-- One iteration of the inner `for v in successors[u]` loop body:
in_degree[v] -= 1, and enqueue v when it reaches exactly zero. -/
def decrStep (acc : List (String × Int) × List String) (v : String) :
    List (String × Int) × List String :=
  let d := decrKey acc.1 v
  if d.lookup v = some 0 then (d, acc.2 ++ [v]) else (d, acc.2)

/-- The inner loop over the successors of the dequeued node: returns the
updated in_degree table together with the newly enqueued ids in order. -/
def processSuccs (succ : List String) (deg : List (String × Int)) :
    List (String × Int) × List String :=
  succ.foldl decrStep (deg, [])

theorem decrKey_cons (k : String) (x : Int) (tl : List (String × Int)) (v : String) :
    decrKey ((k, x) :: tl) v =
      (if k = v then (k, x - 1) else (k, x)) :: decrKey tl v := by
  simp [decrKey]

theorem degSum_cons (p : String × Int) (tl : List (String × Int)) :
    degSum (p :: tl) = p.2.toNat + degSum tl := by
  simp [degSum]

theorem degSum_decrKey_le (deg : List (String × Int)) (v : String) :
    degSum (decrKey deg v) ≤ degSum deg := by
  induction deg with
  | nil => simp [degSum, decrKey]
  | cons hd tl ih =>
      obtain ⟨k, x⟩ := hd
      rw [decrKey_cons, degSum_cons, degSum_cons]
      by_cases h : k = v
      · rw [if_pos h]
        simp only []
        omega
      · rw [if_neg h]
        omega

theorem degSum_decrKey_lt (deg : List (String × Int)) (v : String)
    (h : (decrKey deg v).lookup v = some 0) :
    degSum (decrKey deg v) + 1 ≤ degSum deg := by
  induction deg with
  | nil => simp [decrKey, List.lookup] at h
  | cons hd tl ih =>
      obtain ⟨k, x⟩ := hd
      rw [decrKey_cons] at h ⊢
      rw [degSum_cons, degSum_cons]
      by_cases hv : k = v
      · -- the head entry is the one looked up; it went from 1 to 0
        rw [if_pos hv] at h ⊢
        subst hv
        rw [List.lookup_cons] at h
        simp only [beq_self_eq_true, if_pos] at h
        simp only [Option.some.injEq] at h
        have h2 : x = 1 := by omega
        have := degSum_decrKey_le tl k
        simp only [h2]
        omega
      · rw [if_neg hv] at h ⊢
        rw [List.lookup_cons] at h
        have hbeq : (v == k) = false := by
          simp [Ne.symm hv]
        rw [hbeq] at h
        simp only [Bool.false_eq_true, if_false] at h
        have := ih h
        omega

theorem processSuccs_measure (succ : List String) (deg : List (String × Int))
    (nq : List String) :
    degSum (succ.foldl decrStep (deg, nq)).1 + (succ.foldl decrStep (deg, nq)).2.length ≤
      degSum deg + nq.length := by
  induction succ generalizing deg nq with
  | nil => simp
  | cons v rest ih =>
      simp only [List.foldl_cons]
      by_cases h : (decrKey deg v).lookup v = some 0
      · have hstep : decrStep (deg, nq) v = (decrKey deg v, nq ++ [v]) := by
          simp [decrStep, h]
        rw [hstep]
        have h1 := ih (decrKey deg v) (nq ++ [v])
        have h2 := degSum_decrKey_lt deg v h
        simp only [List.length_append, List.length_cons, List.length_nil] at h1 ⊢
        omega
      · have hstep : decrStep (deg, nq) v = (decrKey deg v, nq) := by
          simp [decrStep, h]
        rw [hstep]
        have h1 := ih (decrKey deg v) nq
        have h2 := degSum_decrKey_le deg v
        omega

/-- The main Kahn loop (main.py lines 253-257): dequeue from the front, append
to the order, decrement successors, enqueue those reaching zero.  Returns the
produced order together with the residual in_degree table. -/
def kahnLoop (succ : String → List String) :
    List String → List (String × Int) → List String → List String × List (String × Int)
  | [], deg, sorted => (sorted, deg)
  | u :: qs, deg, sorted =>
      let step := processSuccs (succ u) deg
      kahnLoop succ (qs ++ step.2) step.1 (sorted ++ [u])
termination_by q deg _ => q.length + degSum deg
decreasing_by
  simp only [List.length_append, List.length_cons, processSuccs]
  have := processSuccs_measure (succ u) deg []
  simp only [List.length_nil, processSuccs] at this
  omega

/-- Runs Kahn's algorithm exactly as main.py lines 244-257 does, returning the
sorted order and the residual in_degree table. -/
def kahnRun (nodes : List WorkflowNode) (edges : List WorkflowEdge) :
    List String × List (String × Int) :=
  let deg := inDegreeAfterEdges nodes edges
  let queue := (deg.filter (fun p => p.2 = 0)).map (·.1)
  kahnLoop (successorsOf nodes edges) queue deg []

/-- The residual in-degree of a step id after the Kahn loop stalls. -/
def residualInDegree (nodes : List WorkflowNode) (edges : List WorkflowEdge) (x : String) :
    Int :=
  ((kahnRun nodes edges).2.lookup x).getD 0

/-- main.py lines 241-263: the topological sort.  On success the ordered node
ids; when the order is shorter than the node list, the HTTPException(400) of
line 261 carrying the ids of positive residual in-degree. -/
def topological_sort (nodes : List WorkflowNode) (edges : List WorkflowEdge) :
    Except (List String) (List String) :=
  let run := kahnRun nodes edges
  if run.1.length = nodes.length then .ok run.1
  else .error ((run.2.filter (fun p => 0 < p.2)).map (·.1))

/-! ### Semantic notions used to state correctness of the scheduler -/

/-- One retained-edge step from a to b. -/
def EdgeRel (E : List WorkflowEdge) (a b : String) : Prop :=
  ∃ e ∈ E, e.source = a ∧ e.target = b

/-- The (retained) edge set contains a directed cycle. -/
def HasCycle (E : List WorkflowEdge) : Prop :=
  ∃ a, Relation.TransGen (EdgeRel E) a a

/-- Number of edges into x. -/
def inCnt (E : List WorkflowEdge) (x : String) : Nat :=
  E.countP (fun e => decide (e.target = x))

/-- Number of edges into x whose source has already been scheduled. -/
def procCnt (E : List WorkflowEdge) (sorted : List String) (x : String) : Nat :=
  E.countP (fun e => decide (e.target = x) && decide (e.source ∈ sorted))

/-- Number of parallel edges from u to x. -/
def edgeCnt (E : List WorkflowEdge) (u x : String) : Nat :=
  E.countP (fun e => decide (e.source = u) && decide (e.target = x))

/-- Whether processing the successor list L will enqueue x: its current
in-degree entry must pass through exactly zero. -/
def willFire (d : List (String × Int)) (L : List String) (x : String) : Bool :=
  match d.lookup x with
  | some c => decide (1 ≤ c ∧ c ≤ (L.count x : Int))
  | none => false

/-- The Kahn loop invariant relating the queue, the in-degree table and the
produced prefix of the order. -/
structure KInv (nodes : List WorkflowNode) (edges : List WorkflowEdge)
    (q : List String) (deg : List (String × Int)) (sorted : List String) : Prop where
  keys : deg.map Prod.fst = nodeIds nodes
  nodupSQ : (sorted ++ q).Nodup
  memSQ : ∀ x ∈ sorted ++ q, x ∈ nodeIds nodes
  degVal : ∀ x ∈ nodeIds nodes, deg.lookup x =
    some ((inCnt (retainedEdges nodes edges) x : Int) -
      (procCnt (retainedEdges nodes edges) sorted x : Int))
  cover : ∀ x ∈ nodeIds nodes, x ∉ sorted → x ∉ q →
    procCnt (retainedEdges nodes edges) sorted x < inCnt (retainedEdges nodes edges) x
  qzero : ∀ x ∈ q, inCnt (retainedEdges nodes edges) x =
    procCnt (retainedEdges nodes edges) sorted x
  sortedzero : ∀ x ∈ sorted, inCnt (retainedEdges nodes edges) x =
    procCnt (retainedEdges nodes edges) sorted x
  ordered : ∀ e ∈ retainedEdges nodes edges, e.target ∈ sorted →
    e.source ∈ sorted ∧ sorted.indexOf e.source < sorted.indexOf e.target

/-! ### Character-level models of the Python str methods used by the code
(kernel-computable, ASCII-only where Python is Unicode-aware) -/

/-- Python s.strip(): drop whitespace from both ends. -/
def pyStrip (s : String) : String :=
  ⟨((s.data.dropWhile Char.isWhitespace).reverse.dropWhile Char.isWhitespace).reverse⟩

/-- ASCII lower-casing of one character. -/
def lowerChar (c : Char) : Char :=
  if 'A' ≤ c ∧ c ≤ 'Z' then Char.ofNat (c.toNat + 32) else c

/-- Python s.lower(). -/
def pyLower (s : String) : String := ⟨s.data.map lowerChar⟩

/-- Split a character list at every comma. -/
def splitComma : List Char → List (List Char)
  | [] => [[]]
  | c :: rest =>
      let r := splitComma rest
      if c = ',' then [] :: r
      else
        match r with
        | [] => [[c]]
        | h :: t => (c :: h) :: t

/-- Python s.split(sep=",") for the comma separator. -/
def pySplitComma (s : String) : List String := (splitComma s.data).map (fun cs => ⟨cs⟩)

/-- Python s.startswith(p). -/
def strStartsWith (s p : String) : Bool := p.data.isPrefixOf s.data

/-! ### Python int() and str() on our values -/

/-- Digits-only parse of a character list (the body of Python int(str)). -/
def digitsToNat? (cs : List Char) : Option Nat :=
  if cs.isEmpty then none
  else if cs.all Char.isDigit then
    some (cs.foldl (fun acc c => acc * 10 + (c.toNat - 48)) 0)
  else none

/-- Python int(s) on a string: surrounding whitespace stripped, an optional
sign, then decimal digits (digit-group underscores are not modelled). -/
def pyStrToInt (s : String) : Option Int :=
  match (pyStrip s).data with
  | [] => none
  | c :: rest =>
      if c = '-' then (digitsToNat? rest).map (fun n => -(n : Int))
      else if c = '+' then (digitsToNat? rest).map (fun n => (n : Int))
      else (digitsToNat? (c :: rest)).map (fun n => (n : Int))

/-- Python int(v): ints pass through, booleans map to 0/1, strings are parsed,
anything else raises (TypeError). -/
def pyInt : Value → Option Int
  | .int n => some n
  | .bool b => some (if b then 1 else 0)
  | .str s => pyStrToInt s
  | _ => none

/-- Python str(v), used only inside recorded error details.  Container
elements are rendered without Python's repr quoting. -/
def pyStr : Value → String
  | .null => "None"
  | .bool b => if b then "True" else "False"
  | .int n => toString n
  | .str s => s
  | .arr xs => "[" ++ String.intercalate ", " (xs.attach.map (fun x => pyStr x.1)) ++ "]"
  | .obj fs => "\x7b" ++
      String.intercalate ", " (fs.attach.map (fun p => p.1.1 ++ ": " ++ pyStr p.1.2)) ++ "\x7d"
decreasing_by
  · have := List.sizeOf_lt_of_mem x.2
    simp at *
    omega
  · obtain ⟨⟨a, b⟩, hmem⟩ := p
    have := List.sizeOf_lt_of_mem hmem
    simp at *
    omega

/-! ### Capability schema data model (agent cards, main.py lines 95-119) -/

structure ParamDef where
  name : Option String := none
  type : Option String := none
  required : Bool := false
deriving Repr

structure ReturnDef where
  name : Option String := none
deriving Repr

structure MethodDef where
  name : String
  params : List ParamDef := []
  returns : List ReturnDef := []
deriving Repr

structure CompositeAgentDefinition where
  name : String
  method_name : String := "run"
  nodes : List WorkflowNode
  edges : List WorkflowEdge
deriving Repr

structure AgentCard where
  name : String
  url : Option String := none
  url_ext : Option String := none
  methods : List MethodDef := []
  is_composite : Bool := false
  composite_definition : Option CompositeAgentDefinition := none
deriving Repr

/-- main.py lines 234-239: first card in the cache with the requested name. -/
def _get_agent_details (agent_name : String) (all_agents : List AgentCard) :
    Option AgentCard :=
  all_agents.find? (fun card => card.name == agent_name)

/-- Python `a or b` on optional strings (an empty string is falsy). -/
def pyOrStr (a b : Option String) : Option String :=
  match a with
  | some s => if s = "" then b else some s
  | none => b

/-- Line 324: agent_url = card.url_ext or card.url, then line 325 rejects a
falsy result. -/
def effectiveUrl (card : AgentCard) : Option String :=
  match pyOrStr card.url_ext card.url with
  | some s => if s = "" then none else some s
  | none => none

/-! ### Remote invocation client (a2a_call, main.py lines 172-216) -/

/-- What the network does to one outgoing call, supplied by an oracle. -/
inductive A2AOutcome where
  | httpStatus (code : Nat) (detail : Value)
  | rpcError (err : Value)
  | rpcResult (v : Value)
  | readTimeout
  | timeoutOther (name : String)
  | requestError (msg : String)
  | clientError (msg : String)
deriving Repr

/-- The only two ways a2a_call can fail: an AgentError (carrying the detail
payload) or an HTTPException (connect failure, status 503). -/
inductive A2AFail where
  | agentErr (detail : Value)
  | httpExc (status : Nat) (detail : String)
deriving Repr

/-- main.py lines 184-216.  Non-200 statuses and rpc error fields become
AgentError; both timeout variants become the -32000 AgentError; a connect
failure (httpx.RequestError) becomes HTTPException(503); any unexpected
client exception is wrapped into the -32001 AgentError. -/
def a2a_call (outcome : A2AOutcome) : Except A2AFail Value :=
  match outcome with
  | .httpStatus code detail =>
      .error (.agentErr (.obj [("message", .str ("Agent returned HTTP " ++ toString code)),
                               ("data", detail)]))
  | .rpcError e => .error (.agentErr e)
  | .rpcResult v => .ok v
  | .readTimeout =>
      .error (.agentErr (.obj [("message", .str "Request timed out"),
                               ("code", .int (-32000))]))
  | .timeoutOther n =>
      .error (.agentErr (.obj [("message", .str ("Request timed out (" ++ n ++ ")")),
                               ("code", .int (-32000))]))
  | .requestError msg =>
      .error (.httpExc 503 ("Service Unavailable: Could not connect to agent. Reason: " ++ msg))
  | .clientError msg =>
      .error (.agentErr (.obj [("message", .str ("Unexpected client error: " ++ msg)),
                               ("code", .int (-32001))]))

/-- Execution environment: the agent cache, the parameterised pieces of the
Python runtime (json.loads and float()), and the network oracle consumed one
call at a time. -/
structure Ctx where
  cache : List AgentCard
  jsonParse : String → Option Value
  pyFloat : Value → Option Value
  oracle : Nat → A2AOutcome

/-! ### Execution logs and responses (main.py lines 77-91) -/

structure ExecutionLog where
  nodeId : String
  agent : String
  method : String
  status : String
  inputs_used : Dict
  output : Value
  duration_ms : Option Nat := none
  details : Option (List Value) := none
deriving Repr

/-- model_dump() of a log entry, used when composite sub-logs are embedded as
plain dicts in the parent entry's details (line 315). -/
def ExecutionLog.toValue (l : ExecutionLog) : Value :=
  .obj [("nodeId", .str l.nodeId), ("agent", .str l.agent), ("method", .str l.method),
        ("status", .str l.status), ("inputs_used", .obj l.inputs_used),
        ("output", l.output),
        ("duration_ms", match l.duration_ms with | none => .null | some n => .int n),
        ("details", match l.details with | none => .null | some ds => .arr ds)]

structure WorkflowExecutionResponse where
  status : String
  logs : List ExecutionLog
  final_state : Dict
deriving Repr

/-! ### Parameter coercion layer (main.py lines 386-455) -/

/-- Line 386-391: the derived result key is the single declared return field
name when it is truthy and not the sentinel, else the sentinel. -/
def resultKey (returns : List ReturnDef) : String :=
  match returns with
  | [r] =>
      match r.name with
      | some n => if n ≠ "" ∧ n ≠ "$result" then n else "$result"
      | none => "$result"
  | _ => "$result"

/-- isinstance(v, str) and v.strip() == "" (line 404). -/
def isBlankStr : Value → Bool
  | .str s => pyStrip s = ""
  | _ => false

/-- Lines 414-447: conversion of one present raw state value to the declared
parameter type.  Errors are the str(e) texts of the raised ValueError /
TypeError / JSONDecodeError. -/
def convertValue (C : Ctx) (pname ptype : String) (raw : Value) : Except String Value :=
  if ptype = "integer" then
    match pyInt raw with
    | some n => .ok (.int n)
    | none => .error ("invalid literal for int: " ++ pyStr raw)
  else if ptype = "number" ∨ ptype = "float" then
    match C.pyFloat raw with
    | some v => .ok v
    | none => .error ("could not convert to float: " ++ pyStr raw)
  else if ptype = "boolean" then
    match raw with
    | .str s =>
        let l := pyLower s
        if l = "true" ∨ l = "1" ∨ l = "yes" then .ok (.bool true)
        else if l = "false" ∨ l = "0" ∨ l = "no" then .ok (.bool false)
        else .error ("Cannot convert string " ++ s ++ " to boolean.")
    | v => .ok (.bool (truthy v))
  else if strStartsWith ptype "array" then
    match raw with
    | .str s =>
        match C.jsonParse s with
        | some (.arr xs) => .ok (.arr xs)
        | some _ => .error "Parsed JSON is not an array."
        | none =>
            if ptype = "array[string]" ∧ s.data.contains ',' then
              .ok (.arr (((pySplitComma s).map pyStrip).map Value.str))
            else .error ("Cannot convert string to array for " ++ pname ++
                         ". Not valid JSON or recognized CSV.")
    | .arr xs => .ok (.arr xs)
    | v => .error ("Input for array param " ++ pname ++ " (type: " ++ ptype ++
                   ") is not a string or list, got " ++ pyTypeName v ++ ".")
  else if ptype = "object" then
    match raw with
    | .str s =>
        match C.jsonParse s with
        | some (.obj fs) => .ok (.obj fs)
        | some _ => .error "Parsed JSON is not an object."
        | none => .error "Expecting value: line 1 column 1"
    | .obj fs => .ok (.obj fs)
    | v => .error ("Input for object param " ++ pname ++ " (type: " ++ ptype ++
                   ") is not a string or dict, got " ++ pyTypeName v ++ ".")
  else .ok raw

/-- The AgentError detail raised on a conversion failure (line 452). -/
def convErrDetail (pname ptype : String) (raw : Value) (emsg : String) : Value :=
  .obj [("message", .str ("Invalid input format for " ++ pname ++ ". Expected " ++ ptype ++ ".")),
        ("value", .str (pyStr raw)), ("error", .str emsg)]

structure BindOut where
  params : Dict
  recorded : Dict
deriving Repr

/-- The per-parameter loop of lines 393-455, carrying params_to_send and
actual_inputs_recorded_for_log. -/
def bindAux (C : Ctx) (state : Dict) :
    List ParamDef → Dict → Dict → Except Value BindOut
  | [], ps, recd => .ok ⟨ps, recd⟩
  | pd :: rest, ps, recd =>
      match pd.name with
      | none => bindAux C state rest ps recd
      | some pname =>
          let recd2 := dictSet recd pname ((state.lookup pname).getD .null)
          match state.lookup pname with
          | some raw =>
              let ptype := pyLower (pd.type.getD "string")
              if !pd.required && isBlankStr raw then
                bindAux C state rest ps recd2
              else if raw.isNull && !pd.required then
                bindAux C state rest (dictSet ps pname .null) recd2
              else
                match convertValue C pname ptype raw with
                | .ok v => bindAux C state rest (dictSet ps pname v) recd2
                | .error emsg => .error (convErrDetail pname ptype raw emsg)
          | none =>
              if pd.required then
                .error (.obj [("message", .str ("Missing required input: " ++ pname))])
              else bindAux C state rest ps recd2

/-- bind(methodSchema, state): the parameter coercion layer. -/
def bindParams (C : Ctx) (pdefs : List ParamDef) (state : Dict) : Except Value BindOut :=
  bindAux C state pdefs [] []

/-! ### Fan-out (batch) pattern: dbservice_agent.create_record
(main.py lines 328-369) -/

/-- The fields reported missing by the item validator (falsy lookups, line 346). -/
def missingFields (fs : List (String × Value)) : List String :=
  (["name", "title", "skills"]).filter (fun f => ! truthy (objGet fs f))

/-- Lines 344-348: validate one candidate record and build the call params.
Errors are the raised ValueError messages. -/
def candidateParams (c : Value) : Except String Dict :=
  match c with
  | .obj fs =>
      let name := objGet fs "name"
      let title := objGet fs "title"
      let skills := objGet fs "skills"
      if !truthy name || !truthy title || skills.isNull then
        .error ("Missing fields: " ++ String.intercalate ", " (missingFields fs))
      else
        match skills with
        | .arr xs => .ok [("name", name), ("title", title), ("skills", .arr xs)]
        | v => .error ("Expected skills list, got " ++ pyTypeName v)
  | _ => .error "Candidate item is not a dict."

/-- One item-level sub-entry dict (item_result, line 342). -/
def itemValue (c : Value) (status : String) (out : Value) : Value :=
  .obj [("input_candidate", c), ("status", .str status), ("output", out)]

structure FanResult where
  results : List Value
  saved : Nat
  errors : Nat
  k : Nat
deriving Repr

/-- The per-candidate loop of lines 341-356.  A malformed item consumes no
network call; a well-formed item consumes exactly one; ValueError, AgentError
and HTTPException are all caught per item and recorded, and the loop
continues. -/
def runItems (oracle : Nat → A2AOutcome) : List Value → Nat → FanResult
  | [], k => ⟨[], 0, 0, k⟩
  | c :: rest, k =>
      match candidateParams c with
      | .error msg =>
          let r := runItems oracle rest k
          ⟨itemValue c "error" (.obj [("error", .obj [("message", .str msg),
              ("code", .int (-32602))])]) :: r.results, r.saved, r.errors + 1, r.k⟩
      | .ok _ps =>
          match a2a_call (oracle k) with
          | .ok out =>
              let r := runItems oracle rest (k + 1)
              ⟨itemValue c "success" out :: r.results, r.saved + 1, r.errors, r.k⟩
          | .error (.agentErr d) =>
              let r := runItems oracle rest (k + 1)
              ⟨itemValue c "error" (.obj [("error", d)]) :: r.results,
               r.saved, r.errors + 1, r.k⟩
          | .error (.httpExc code detail) =>
              let r := runItems oracle rest (k + 1)
              ⟨itemValue c "error" (.obj [("error", .obj [("message", .str detail),
                  ("code", .int code)])]) :: r.results, r.saved, r.errors + 1, r.k⟩

/-- Line 358: aggregate status of the batch step. -/
def fanStatus (saved errors : Nat) : String :=
  if 0 < errors ∧ saved = 0 then "error"
  else if 0 < errors then "partial_success"
  else "success"

/-- Line 359: the aggregate summary record stored in the step output and under
the <nodeId>_summary state key. -/
def fanSummary (n saved errors : Nat) : Value :=
  .obj [("message", .str ("Attempted " ++ toString n ++ " saves.")),
        ("saved", .int saved), ("errors", .int errors)]

/-! ### The execution engine (execute_workflow_graph, main.py lines 266-507) -/

/-- Exceptions that can escape one whole frame of execute_workflow_graph:
an HTTPException (re-raised at line 500) or any other exception (models
KeyError/RecursionError, caught at line 501). -/
inductive FrameExc where
  | httpExc (status : Nat) (detail : String)
  | other (msg : String)
deriving Repr

/-- Exceptions raised inside the per-node try of lines 297-472. -/
inductive StepFail where
  | agentErr (detail : Value)
  | httpExc (status : Nat) (detail : String)
  | other (msg : String)
deriving Repr

/-- Outcome of processing a single node: continue the loop, return a response
early (the in-try returns at lines 320/369 and the caught-error return at
line 481), or propagate an uncaught exception (line 487). -/
inductive StepOut where
  | next (entry : ExecutionLog) (state : Dict) (ws : String) (k : Nat)
  | halt (entry : ExecutionLog) (state : Dict) (ws : String) (k : Nat)
  | raised (exc : FrameExc) (k : Nat)
deriving Repr

/-- The result of one frame: the response, the next oracle index, and the
workflow_status value after each processed step (used to state monotonicity). -/
structure LoopOut where
  resp : WorkflowExecutionResponse
  k : Nat
  trace : List String
deriving Repr

/-- The type of the recursive call available to a frame for composite steps. -/
abbrev SubExec :=
  List WorkflowNode → List WorkflowEdge → Dict → Nat → Except (FrameExc × Nat) LoopOut

/-- The freshly instantiated log entry of line 294. -/
def initLog (node : WorkflowNode) : ExecutionLog :=
  { nodeId := node.id, agent := node.data.agent, method := node.data.method,
    status := "pending", inputs_used := [], output := .null }

/-- Duration stamping when an entry is finalized (modelled as zero). -/
def stamp (e : ExecutionLog) : ExecutionLog := { e with duration_ms := some 0 }

/-- Python node_map[node_id]: a dict built from the node list, so a later
duplicate id wins. -/
def lookupNode (nodes : List WorkflowNode) (nid : String) : Option WorkflowNode :=
  nodes.reverse.find? (fun n => n.id == nid)

/-- Composite branch (lines 303-320): run the nested graph on a snapshot of
state, merge its final state, copy its logs as details, map its verdict onto
the step status, stop the parent on failed. -/
def stepComposite (subExec : SubExec) (cdef : CompositeAgentDefinition)
    (entry : ExecutionLog) (state : Dict) (ws : String) (k : Nat) :
    Except (StepFail × ExecutionLog × Nat) StepOut :=
  let entry1 := { entry with inputs_used := state }
  match subExec cdef.nodes cdef.edges state k with
  | .error (.httpExc code detail, k2) => .error (.httpExc code detail, entry1, k2)
  | .error (.other m, k2) => .error (.other m, entry1, k2)
  | .ok sub =>
      let state2 := dictUpdate state sub.resp.final_state
      let entry2 := { entry1 with
        status := sub.resp.status,
        output := .obj [("message",
          .str ("Composite execution finished with status: " ++ sub.resp.status))],
        details := some (sub.resp.logs.map ExecutionLog.toValue) }
      if sub.resp.status ≠ "completed" then
        if sub.resp.status = "failed" then .ok (.halt (stamp entry2) state2 "failed" sub.k)
        else .ok (.next (stamp entry2) state2 sub.resp.status sub.k)
      else .ok (.next (stamp entry2) state2 ws sub.k)

/-- Fan-out branch (lines 328-369). -/
def stepFanout (C : Ctx) (node : WorkflowNode) (entry : ExecutionLog)
    (state : Dict) (ws : String) (k : Nat) :
    Except (StepFail × ExecutionLog × Nat) StepOut :=
  match state.lookup "$result" with
  | some (.arr items) =>
      let entry1 := { entry with inputs_used :=
        [("source_key", .str "$result"), ("count_from_global_state", .int items.length)] }
      if items.isEmpty then
        .ok (.next (stamp { entry1 with
          status := "success",
          output := .obj [("message", .str "No candidates to save.")],
          inputs_used := [("source_key", .str "$result")],
          details := some [] }) state ws k)
      else
        let fr := runItems C.oracle items k
        let summary := fanSummary items.length fr.saved fr.errors
        let entry2 := { entry1 with
          details := some fr.results,
          status := fanStatus fr.saved fr.errors,
          output := summary,
          inputs_used := [("source_key", .str "$result"), ("count", .int items.length)] }
        let state2 := dictSet state (node.id ++ "_summary") summary
        if 0 < fr.errors then
          let nodeStatus := if fr.saved = 0 then "failed" else "partial_success"
          let ws2 := if ws ≠ "failed" then nodeStatus else ws
          if nodeStatus = "failed" then .ok (.halt (stamp entry2) state2 ws2 fr.k)
          else .ok (.next (stamp entry2) state2 ws2 fr.k)
        else .ok (.next (stamp entry2) state2 ws fr.k)
  | _ => .error (.agentErr (.obj [("message",
      .str "Input error: Expected list under key $result")]), entry, k)

/-- Default branch (lines 372-472): method schema lookup, parameter binding,
one remote call, merge of the result into state. -/
def stepDefault (C : Ctx) (node : WorkflowNode) (card : AgentCard)
    (entry : ExecutionLog) (state : Dict) (ws : String) (k : Nat) :
    Except (StepFail × ExecutionLog × Nat) StepOut :=
  match card.methods.find? (fun m => m.name == node.data.method) with
  | none => .error (.agentErr (.obj [("message",
      .str ("Method " ++ node.data.method ++ " metadata not found for agent " ++
            node.data.agent ++ "."))]), entry, k)
  | some mdef =>
      let rkey := resultKey mdef.returns
      match bindParams C mdef.params state with
      | .error d => .error (.agentErr d, entry, k)
      | .ok b =>
          let entry2 := { entry with inputs_used := b.recorded }
          match a2a_call (C.oracle k) with
          | .error (.agentErr d) => .error (.agentErr d, entry2, k + 1)
          | .error (.httpExc code detail) => .error (.httpExc code detail, entry2, k + 1)
          | .ok out =>
              let state2 := match out with
                | .obj fs => dictUpdate state fs
                | .null => state
                | v => dictSet state rkey v
              .ok (.next (stamp { entry2 with status := "success", output := out })
                state2 ws (k + 1))

/-- Base-agent branch (lines 322-472): resolve the url, then dispatch to the
hardcoded fan-out special case or the default handler. -/
def stepBase (C : Ctx) (node : WorkflowNode) (card : AgentCard)
    (entry : ExecutionLog) (state : Dict) (ws : String) (k : Nat) :
    Except (StepFail × ExecutionLog × Nat) StepOut :=
  match effectiveUrl card with
  | none => .error (.httpExc 500 ("No valid URL for base agent " ++ node.data.agent),
      entry, k)
  | some _url =>
      if node.data.agent = "dbservice_agent" ∧ node.data.method = "create_record" then
        stepFanout C node entry state ws k
      else
        stepDefault C node card entry state ws k

/-- The body of the per-node try (lines 297-472). -/
def stepBody (C : Ctx) (subExec : SubExec) (node : WorkflowNode)
    (state : Dict) (ws : String) (k : Nat) :
    Except (StepFail × ExecutionLog × Nat) StepOut :=
  let entry := initLog node
  match _get_agent_details node.data.agent C.cache with
  | none => .error (.httpExc 404 ("Agent " ++ node.data.agent ++
      " not found during execution."), entry, k)
  | some card =>
      match card.is_composite, card.composite_definition with
      | true, some cdef => stepComposite subExec cdef entry state ws k
      | _, _ => stepBase C node card entry state ws k

/-- One node of the main loop with its error handling (lines 289-492):
HTTPException and AgentError become the step's error log entry and an early
failed return (lines 475-481); any other exception aborts the loop with a
fresh HTTPException(500) (lines 483-487). -/
def execStep (C : Ctx) (subExec : SubExec) (node : WorkflowNode)
    (state : Dict) (ws : String) (k : Nat) : StepOut :=
  match stepBody C subExec node state ws k with
  | .ok out => out
  | .error (.agentErr d, entry, k2) =>
      .halt (stamp { entry with
        status := "error",
        output := .obj [("error", d)] }) state "failed" k2
  | .error (.httpExc code detail, entry, k2) =>
      .halt (stamp { entry with
        status := "error",
        output := .obj [("error", .obj [("message", .str detail), ("code", .int code)])] })
        state "failed" k2
  | .error (.other m, _entry, k2) =>
      .raised (.httpExc 500 ("Unexpected internal error processing node: " ++ m)) k2

/-- The for-loop of line 289, walking the scheduled order. -/
def execLoop (stepF : WorkflowNode → Dict → String → Nat → StepOut)
    (nodes : List WorkflowNode) :
    List String → Dict → String → Nat → List ExecutionLog →
    Except (FrameExc × Dict × Nat) LoopOut
  | [], state, ws, k, logs => .ok ⟨⟨ws, logs, state⟩, k, []⟩
  | nid :: rest, state, ws, k, logs =>
      match lookupNode nodes nid with
      | none => .error (.other ("KeyError: " ++ nid), state, k)
      | some node =>
          match stepF node state ws k with
          | .next e st2 ws2 k2 =>
              match execLoop stepF nodes rest st2 ws2 k2 (logs ++ [e]) with
              | .ok r => .ok ⟨r.resp, r.k, ws2 :: r.trace⟩
              | .error f => .error f
          | .halt e st2 ws2 k2 => .ok ⟨⟨ws2, logs ++ [e], st2⟩, k2, [ws2]⟩
          | .raised exc k2 => .error (exc, state, k2)

/-- The synthetic WORKFLOW_SETUP entry of lines 503-507. -/
def syntheticLog (msg : String) : ExecutionLog :=
  { nodeId := "WORKFLOW_SETUP", agent := "System", method := "Orchestration",
    status := "error", inputs_used := [],
    output := .obj [("error", .obj [("message", .str msg), ("code", .int (-32000))])] }

/-- One frame of execute_workflow_graph (lines 266-507): schedule, short
circuit an empty order, run the loop, re-raise HTTPExceptions, convert any
other escaped exception into the synthetic failed response. -/
def execFrame (C : Ctx) (subExec : SubExec) (nodes : List WorkflowNode)
    (edges : List WorkflowEdge) (initial_inputs : Dict) (k : Nat) :
    Except (FrameExc × Nat) LoopOut :=
  match topological_sort nodes edges with
  | .error cyc => .error (.httpExc 400 ("Workflow graph contains a cycle. Affected nodes: " ++
      String.intercalate ", " cyc), k)
  | .ok ord =>
      if ord.isEmpty && !nodes.isEmpty then
        .error (.httpExc 400 "Cannot determine workflow start node.", k)
      else if ord.isEmpty then
        .ok ⟨⟨"completed", [], []⟩, k, []⟩
      else
        match execLoop (execStep C subExec) nodes ord initial_inputs "completed" k [] with
        | .ok r => .ok r
        | .error (.httpExc code detail, _st, k2) => .error (.httpExc code detail, k2)
        | .error (.other m, st, k2) => .ok ⟨⟨"failed", [syntheticLog m], st⟩, k2, []⟩

/-- execute_workflow_graph with an explicit recursion-depth budget: a frame at
fuel n+1 hands fuel n to nested composite executions; at fuel 0 the attempted
recursive call itself raises (Python RecursionError at the call site). -/
def execute_workflow_graph (C : Ctx) : Nat → SubExec
  | 0 => fun nodes edges initial k =>
      execFrame C (fun _ _ _ kk => .error (.other "maximum recursion depth exceeded", kk))
        nodes edges initial k
  | fuel + 1 => fun nodes edges initial k =>
      execFrame C (execute_workflow_graph C fuel) nodes edges initial k

/-- The status string recorded in one item-level sub-entry. -/
def itemStatusStr (v : Value) : String :=
  match v with
  | .obj fs =>
      match objGet fs "status" with
      | .str s => s
      | _ => ""
  | _ => ""

/-- Severity rank of a workflow verdict: completed < partial_success < failed. -/
def rank : String → Nat
  | "partial_success" => 1
  | "failed" => 2
  | _ => 0

/-- The three legal workflow verdicts. -/
def goodStatus (s : String) : Prop :=
  s = "completed" ∨ s = "partial_success" ∨ s = "failed"

/-- A recursive executor whose successful responses carry a legal verdict. -/
def SubGood (sub : SubExec) : Prop :=
  ∀ ns es st kk r, sub ns es st kk = .ok r → goodStatus r.resp.status

/-- The log entry a step outcome finalizes, when it does not raise. -/
def stepEntry : StepOut → Option ExecutionLog
  | .next e _ _ _ => some e
  | .halt e _ _ _ => some e
  | .raised _ _ => none

/-- The shared state a step outcome leaves behind, when it does not raise. -/
def stepState : StepOut → Option Dict
  | .next _ st _ _ => some st
  | .halt _ st _ _ => some st
  | .raised _ _ => none

/-! ### Concrete fixtures used by witnesses and counterexamples -/

/-- A plain base agent with one parameterless method m. -/
def mCard : AgentCard :=
  { name := "ag", url := some "http://x",
    methods := [{ name := "m", params := [], returns := [] }] }

/-- The dbservice agent targeted by the fan-out special case. -/
def dbCard : AgentCard :=
  { name := "dbservice_agent", url := some "http://db",
    methods := [{ name := "create_record", params := [], returns := [] }] }

def subNode : WorkflowNode := ⟨"s1", ⟨"", "ag", "m"⟩⟩

/-- A composite whose nested graph is the single base step s1. -/
def compDef : CompositeAgentDefinition :=
  { name := "comp", nodes := [subNode], edges := [] }

def compCard : AgentCard :=
  { name := "comp", methods := [{ name := "run" }], is_composite := true,
    composite_definition := some compDef }

/-- A composite that recursively contains a step targeting itself. -/
def selfDef : CompositeAgentDefinition :=
  { name := "loopc", nodes := [⟨"s2", ⟨"", "loopc", "run"⟩⟩], edges := [] }

def selfCard : AgentCard :=
  { name := "loopc", methods := [{ name := "run" }], is_composite := true,
    composite_definition := some selfDef }

def demoCache : List AgentCard := [mCard, dbCard, compCard, selfCard]

/-- A concrete environment over the demo cache with a trivial json parser and
float converter and the given network oracle. -/
def mkCtx (oracle : Nat → A2AOutcome) : Ctx :=
  { cache := demoCache, jsonParse := fun _ => none, pyFloat := fun _ => none,
    oracle := oracle }

def nA : WorkflowNode := ⟨"a", ⟨"", "ag", "m"⟩⟩
def nB : WorkflowNode := ⟨"b", ⟨"", "ag", "m"⟩⟩
def nComp : WorkflowNode := ⟨"c1", ⟨"", "comp", "run"⟩⟩
def nSelf : WorkflowNode := ⟨"r1", ⟨"", "loopc", "run"⟩⟩
def nDb : WorkflowNode := ⟨"d1", ⟨"", "dbservice_agent", "create_record"⟩⟩

/-- A well-formed candidate record for the fan-out step. -/
def goodItem : Value :=
  .obj [("name", .str "ok"), ("title", .str "t"), ("skills", .arr [.str "a"])]

/-- A malformed candidate record (empty name). -/
def badItem : Value :=
  .obj [("name", .str ""), ("title", .str "t"), ("skills", .arr [])]

/-- A context whose every remote call succeeds with a null result. -/
def okCtx : Ctx := mkCtx (fun _ => .rpcResult .null)

/-- A recursive executor stub for lemmas that never reach a composite step. -/
def subFail : SubExec := fun _ _ _ kk => .error (.other "unused", kk)

/-- Shared state holding the fan-out input list with one good and one bad item. -/
def stDb : Dict := [("$result", .arr [goodItem, badItem])]

/-- A context whose every remote call exceeds its read deadline. -/
def toCtx : Ctx := mkCtx (fun _ => .readTimeout)

/-- The log entry of the nested step s1 timing out. -/
def tEntry : ExecutionLog :=
  { nodeId := "s1", agent := "ag", method := "m", status := "error",
    inputs_used := [],
    output := .obj [("error", .obj [("message", .str "Request timed out"),
      ("code", .int (-32000))])],
    duration_ms := some 0, details := none }

/-- The failed response of the nested composite graph under toCtx. -/
def tResp : LoopOut := ⟨⟨"failed", [tEntry], []⟩, 1, ["failed"]⟩

/-- The recursive call at an exhausted recursion budget: raises at once. -/
def recSub : SubExec := fun _ _ _ kk =>
  .error (.other "maximum recursion depth exceeded", kk)

/-! ## Claim theorems -/

/-- C4: the parameter coercion layer maps a declared integer parameter whose
state value is the string "42" to the call value 42; a declared
array[string] parameter whose state value is "a,b,c" (not valid JSON) to the
list ["a","b","c"]; and it omits an optional boolean parameter whose state
value is the empty string from the outgoing call parameters entirely (the
recorded pre-coercion inputs keep the raw values). -/
theorem C4_param_coercion (C : Ctx) (n : String) (state1 state2 state3 : Dict)
    (req : Bool)
    (h1 : state1.lookup n = some (.str "42"))
    (h2 : state2.lookup n = some (.str "a,b,c"))
    (hjson : C.jsonParse "a,b,c" = none)
    (h3 : state3.lookup n = some (.str "")) :
    bindParams C [{ name := some n, type := some "integer", required := req }] state1 =
      .ok ⟨[(n, .int 42)], [(n, .str "42")]⟩ ∧
    bindParams C [{ name := some n, type := some "array[string]", required := req }] state2 =
      .ok ⟨[(n, .arr [.str "a", .str "b", .str "c"])], [(n, .str "a,b,c")]⟩ ∧
    bindParams C [{ name := some n, type := some "boolean", required := false }] state3 =
      .ok ⟨[], [(n, .str "")]⟩ := by
  refine ⟨?_, ?_, ?_⟩
  · simp only [bindParams, bindAux]
    rw [h1]
    have e2 : isBlankStr (.str "42") = false := by decide
    have e3 : pyStrToInt "42" = some 42 := by decide
    simp only [e2, Bool.and_false, Bool.false_eq_true, if_false, Value.isNull,
      Bool.false_and, convertValue, pyInt, e3]
    rfl
  · simp only [bindParams, bindAux]
    rw [h2]
    have e2 : isBlankStr (.str "a,b,c") = false := by decide
    simp only [e2, Bool.and_false, Bool.false_eq_true, if_false, Value.isNull,
      Bool.false_and, convertValue]
    rw [hjson]
    rfl
  · simp only [bindParams, bindAux]
    rw [h3]
    rfl

/-- Witness for C4 at a concrete context and concrete states. -/
theorem C4_param_coercion_witness :
    bindParams (mkCtx (fun _ => .rpcResult .null))
      [{ name := some "p", type := some "integer", required := false }]
      [("p", .str "42")] = .ok ⟨[("p", .int 42)], [("p", .str "42")]⟩ ∧
    bindParams (mkCtx (fun _ => .rpcResult .null))
      [{ name := some "p", type := some "array[string]", required := false }]
      [("p", .str "a,b,c")] =
        .ok ⟨[("p", .arr [.str "a", .str "b", .str "c"])], [("p", .str "a,b,c")]⟩ ∧
    bindParams (mkCtx (fun _ => .rpcResult .null))
      [{ name := some "p", type := some "boolean", required := false }]
      [("p", .str "")] = .ok ⟨[], [("p", .str "")]⟩ :=
  C4_param_coercion (mkCtx (fun _ => .rpcResult .null)) "p"
    [("p", .str "42")] [("p", .str "a,b,c")] [("p", .str "")] false rfl rfl rfl rfl

/-- The status recorded in an item-level sub-entry is the one it was built with. -/
theorem itemStatusStr_itemValue (c : Value) (st : String) (out : Value) :
    itemStatusStr (itemValue c st out) = st := rfl

/-- Every item-level sub-entry carries status success or error, one sub-entry
is recorded per input item, and the two counters partition the items. -/
theorem runItems_counts (oracle : Nat → A2AOutcome) (items : List Value) (k : Nat) :
    (∀ r ∈ (runItems oracle items k).results,
        itemStatusStr r = "success" ∨ itemStatusStr r = "error") ∧
    (runItems oracle items k).results.length = items.length ∧
    (runItems oracle items k).saved + (runItems oracle items k).errors = items.length := by
  induction items generalizing k with
  | nil => simp [runItems]
  | cons c rest ih =>
      rcases hc : candidateParams c with msg | ps
      · obtain ⟨ha, hb, hd⟩ := ih k
        simp only [runItems, hc]
        refine ⟨?_, by simp [hb], by simp; omega⟩
        intro r hr
        rw [List.mem_cons] at hr
        rcases hr with rfl | h
        · right; exact itemStatusStr_itemValue ..
        · exact ha r h
      · rcases ho : a2a_call (oracle k) with f | out
        · rcases f with d | ⟨code, detail⟩
          · obtain ⟨ha, hb, hd⟩ := ih (k + 1)
            simp only [runItems, hc, ho]
            refine ⟨?_, by simp [hb], by simp; omega⟩
            intro r hr
            rw [List.mem_cons] at hr
            rcases hr with rfl | h
            · right; exact itemStatusStr_itemValue ..
            · exact ha r h
          · obtain ⟨ha, hb, hd⟩ := ih (k + 1)
            simp only [runItems, hc, ho]
            refine ⟨?_, by simp [hb], by simp; omega⟩
            intro r hr
            rw [List.mem_cons] at hr
            rcases hr with rfl | h
            · right; exact itemStatusStr_itemValue ..
            · exact ha r h
        · obtain ⟨ha, hb, hd⟩ := ih (k + 1)
          simp only [runItems, hc, ho]
          refine ⟨?_, by simp [hb], by simp; omega⟩
          intro r hr
          rw [List.mem_cons] at hr
          rcases hr with rfl | h
          · left; exact itemStatusStr_itemValue ..
          · exact ha r h

/-- Characterization of the aggregate batch status in terms of the error count
(lines 358 and 363). -/
theorem fanStatus_iffs (s e n : Nat) (h : s + e = n) :
    (fanStatus s e = "partial_success" ↔ 0 < e ∧ e < n) ∧
    (fanStatus s e = "error" ↔ e = n ∧ 0 < n) ∧
    (fanStatus s e = "success" ↔ e = 0) := by
  unfold fanStatus
  by_cases h1 : 0 < e ∧ s = 0
  · rw [if_pos h1]
    exact ⟨⟨fun hx => absurd hx (by decide), fun hx => absurd hx (by omega)⟩,
           ⟨fun _ => by omega, fun _ => rfl⟩,
           ⟨fun hx => absurd hx (by decide), fun hx => absurd hx (by omega)⟩⟩
  · rw [if_neg h1]
    by_cases h2 : 0 < e
    · rw [if_pos h2]
      exact ⟨⟨fun _ => by omega, fun _ => rfl⟩,
             ⟨fun hx => absurd hx (by decide), fun hx => absurd hx (by omega)⟩,
             ⟨fun hx => absurd hx (by decide), fun hx => absurd hx (by omega)⟩⟩
    · rw [if_neg h2]
      exact ⟨⟨fun hx => absurd hx (by decide), fun hx => absurd hx (by omega)⟩,
             ⟨fun hx => absurd hx (by decide), fun hx => absurd hx (by omega)⟩,
             ⟨fun _ => by omega, fun _ => rfl⟩⟩

/-- Shape of a non-empty fan-out step: the finalized entry holds the aggregate
status, summary output and the item sub-entries, and the state gains exactly
the <nodeId>_summary binding. -/
theorem fanout_step_shape (C : Ctx) (sub : SubExec) (node : WorkflowNode)
    (card : AgentCard) (u : String) (state : Dict) (ws : String) (k : Nat)
    (items : List Value)
    (hcard : _get_agent_details node.data.agent C.cache = some card)
    (hnc : card.is_composite = false)
    (hurl : effectiveUrl card = some u)
    (hdb : node.data.agent = "dbservice_agent")
    (hcr : node.data.method = "create_record")
    (hitems : state.lookup "$result" = some (.arr items))
    (hne : items ≠ []) :
    stepEntry (execStep C sub node state ws k) =
      some (stamp { initLog node with
        status := fanStatus (runItems C.oracle items k).saved
          (runItems C.oracle items k).errors,
        output := fanSummary items.length (runItems C.oracle items k).saved
          (runItems C.oracle items k).errors,
        inputs_used := [("source_key", .str "$result"), ("count", .int items.length)],
        details := some (runItems C.oracle items k).results }) ∧
    stepState (execStep C sub node state ws k) =
      some (dictSet state (node.id ++ "_summary")
        (fanSummary items.length (runItems C.oracle items k).saved
          (runItems C.oracle items k).errors)) := by
  have hie : items.isEmpty = false := by
    cases items with
    | nil => exact absurd rfl hne
    | cons a b => rfl
  simp only [hdb, hcr] at hcard
  simp only [execStep, stepBody, hdb, hcr, hcard, hnc, stepBase, hurl, stepFanout,
    hitems, hie, Bool.false_eq_true, if_false, eq_self_iff_true, and_self, if_true]
  by_cases herr : 0 < (runItems C.oracle items k).errors
  · by_cases hsav : (runItems C.oracle items k).saved = 0
    · simp [herr, hsav, stepEntry, stepState, initLog, stamp]
    · simp [herr, hsav, stepEntry, stepState, initLog, stamp]
  · simp [herr, stepEntry, stepState, initLog, stamp]

/-- C2: for a fan-out step whose designated state key holds N items of which
exactly M fail (malformed or failed remotely): each item yields exactly one
success or error sub-entry (so M is the error count and the success and error
counts partition the N items), the aggregate status is partial_success iff
0 < M < N, error iff M = N with N > 0, success iff M = 0, the step entry
records all N sub-entries in its details, and the empty list is a no-op
logged as success with unchanged state. -/
theorem C2_fanout_isolation (C : Ctx) (sub : SubExec) (node : WorkflowNode)
    (card : AgentCard) (u : String) (state : Dict) (ws : String) (k : Nat)
    (items : List Value)
    (hcard : _get_agent_details node.data.agent C.cache = some card)
    (hnc : card.is_composite = false)
    (hurl : effectiveUrl card = some u)
    (hdb : node.data.agent = "dbservice_agent")
    (hcr : node.data.method = "create_record")
    (hitems : state.lookup "$result" = some (.arr items)) :
    ((runItems C.oracle items k).saved + (runItems C.oracle items k).errors =
      items.length) ∧
    (∀ r ∈ (runItems C.oracle items k).results,
        itemStatusStr r = "success" ∨ itemStatusStr r = "error") ∧
    ((runItems C.oracle items k).results.length = items.length) ∧
    (fanStatus (runItems C.oracle items k).saved (runItems C.oracle items k).errors =
        "partial_success" ↔
      0 < (runItems C.oracle items k).errors ∧
        (runItems C.oracle items k).errors < items.length) ∧
    (fanStatus (runItems C.oracle items k).saved (runItems C.oracle items k).errors =
        "error" ↔
      (runItems C.oracle items k).errors = items.length ∧ 0 < items.length) ∧
    (fanStatus (runItems C.oracle items k).saved (runItems C.oracle items k).errors =
        "success" ↔ (runItems C.oracle items k).errors = 0) ∧
    (items ≠ [] →
      stepEntry (execStep C sub node state ws k) =
        some (stamp { initLog node with
          status := fanStatus (runItems C.oracle items k).saved
            (runItems C.oracle items k).errors,
          output := fanSummary items.length (runItems C.oracle items k).saved
            (runItems C.oracle items k).errors,
          inputs_used := [("source_key", .str "$result"), ("count", .int items.length)],
          details := some (runItems C.oracle items k).results })) ∧
    (items = [] →
      execStep C sub node state ws k =
        .next (stamp { initLog node with
          status := "success",
          output := .obj [("message", .str "No candidates to save.")],
          inputs_used := [("source_key", .str "$result")],
          details := some [] }) state ws k) := by
  obtain ⟨ha, hb, hd⟩ := runItems_counts C.oracle items k
  obtain ⟨hp, he, hs⟩ := fanStatus_iffs (runItems C.oracle items k).saved
    (runItems C.oracle items k).errors items.length hd
  refine ⟨hd, ha, hb, hp, he, hs, ?_, ?_⟩
  · intro hne
    exact (fanout_step_shape C sub node card u state ws k items
      hcard hnc hurl hdb hcr hitems hne).1
  · intro hempty
    subst hempty
    simp only [hdb, hcr] at hcard
    simp only [execStep, stepBody, hdb, hcr, hcard, hnc, stepBase, hurl, stepFanout,
      hitems, List.isEmpty_nil, if_true, Bool.false_eq_true, if_false,
      eq_self_iff_true, and_self]

/-- Witness for C2: one good and one bad candidate under an
always-succeeding network give partial_success with two sub-entries. -/
theorem C2_fanout_isolation_witness :
    ((runItems okCtx.oracle [goodItem, badItem] 0).saved +
      (runItems okCtx.oracle [goodItem, badItem] 0).errors = 2) ∧
    (∀ r ∈ (runItems okCtx.oracle [goodItem, badItem] 0).results,
        itemStatusStr r = "success" ∨ itemStatusStr r = "error") ∧
    ((runItems okCtx.oracle [goodItem, badItem] 0).results.length = 2) ∧
    (fanStatus (runItems okCtx.oracle [goodItem, badItem] 0).saved
        (runItems okCtx.oracle [goodItem, badItem] 0).errors = "partial_success" ↔
      0 < (runItems okCtx.oracle [goodItem, badItem] 0).errors ∧
        (runItems okCtx.oracle [goodItem, badItem] 0).errors < 2) ∧
    (fanStatus (runItems okCtx.oracle [goodItem, badItem] 0).saved
        (runItems okCtx.oracle [goodItem, badItem] 0).errors = "error" ↔
      (runItems okCtx.oracle [goodItem, badItem] 0).errors = 2 ∧ 0 < 2) ∧
    (fanStatus (runItems okCtx.oracle [goodItem, badItem] 0).saved
        (runItems okCtx.oracle [goodItem, badItem] 0).errors = "success" ↔
      (runItems okCtx.oracle [goodItem, badItem] 0).errors = 0) ∧
    (([goodItem, badItem] : List Value) ≠ [] →
      stepEntry (execStep okCtx subFail nDb stDb "completed" 0) =
        some (stamp { initLog nDb with
          status := fanStatus (runItems okCtx.oracle [goodItem, badItem] 0).saved
            (runItems okCtx.oracle [goodItem, badItem] 0).errors,
          output := fanSummary 2 (runItems okCtx.oracle [goodItem, badItem] 0).saved
            (runItems okCtx.oracle [goodItem, badItem] 0).errors,
          inputs_used := [("source_key", .str "$result"), ("count", .int 2)],
          details := some (runItems okCtx.oracle [goodItem, badItem] 0).results })) ∧
    (([goodItem, badItem] : List Value) = [] →
      execStep okCtx subFail nDb stDb "completed" 0 =
        .next (stamp { initLog nDb with
          status := "success",
          output := .obj [("message", .str "No candidates to save.")],
          inputs_used := [("source_key", .str "$result")],
          details := some [] }) stDb "completed" 0) :=
  C2_fanout_isolation okCtx subFail nDb dbCard "http://db" stDb "completed" 0
    [goodItem, badItem] rfl rfl rfl rfl rfl rfl

/-- C10: for a fan-out step over a non-empty input list, the resulting shared
state is exactly the incoming state with the single key <stepId>_summary bound
to the aggregate summary record; per-item outputs are never merged. -/
theorem C10_fanout_summary_key (C : Ctx) (sub : SubExec) (node : WorkflowNode)
    (card : AgentCard) (u : String) (state : Dict) (ws : String) (k : Nat)
    (items : List Value)
    (hcard : _get_agent_details node.data.agent C.cache = some card)
    (hnc : card.is_composite = false)
    (hurl : effectiveUrl card = some u)
    (hdb : node.data.agent = "dbservice_agent")
    (hcr : node.data.method = "create_record")
    (hitems : state.lookup "$result" = some (.arr items))
    (hne : items ≠ []) :
    stepState (execStep C sub node state ws k) =
      some (dictSet state (node.id ++ "_summary")
        (fanSummary items.length (runItems C.oracle items k).saved
          (runItems C.oracle items k).errors)) :=
  (fanout_step_shape C sub node card u state ws k items
    hcard hnc hurl hdb hcr hitems hne).2

/-- Witness for C10 on the concrete two-item batch. -/
theorem C10_fanout_summary_key_witness :
    stepState (execStep okCtx subFail nDb stDb "completed" 0) =
      some (dictSet stDb ("d1" ++ "_summary")
        (fanSummary 2 (runItems okCtx.oracle [goodItem, badItem] 0).saved
          (runItems okCtx.oracle [goodItem, badItem] 0).errors)) :=
  C10_fanout_summary_key okCtx subFail nDb dbCard "http://db" stDb "completed" 0
    [goodItem, badItem] rfl rfl rfl rfl rfl rfl (List.cons_ne_nil _ _)

/-- C9: an ordinary (non-fan-out, non-composite) step whose remote call
succeeds with a null result leaves the shared state completely unchanged (the
result is stored under no key, not even the derived result key), and the step
is logged with status success and output null. -/
theorem C9_null_result_frame (C : Ctx) (sub : SubExec) (node : WorkflowNode)
    (card : AgentCard) (mdef : MethodDef) (u : String) (b : BindOut)
    (state : Dict) (ws : String) (k : Nat)
    (hcard : _get_agent_details node.data.agent C.cache = some card)
    (hnc : card.is_composite = false)
    (hurl : effectiveUrl card = some u)
    (hord : ¬(node.data.agent = "dbservice_agent" ∧ node.data.method = "create_record"))
    (hm : card.methods.find? (fun m => m.name == node.data.method) = some mdef)
    (hbind : bindParams C mdef.params state = .ok b)
    (horacle : C.oracle k = .rpcResult .null) :
    execStep C sub node state ws k =
      .next (stamp { initLog node with
        inputs_used := b.recorded,
        status := "success",
        output := .null }) state ws (k + 1) := by
  simp only [execStep, stepBody, hcard, hnc, stepBase, hurl, Bool.false_eq_true,
    if_false, stepDefault, hm, hbind, horacle, a2a_call, if_neg hord]

/-- Witness for C9: a one-parameterless-method agent called with a null
result on the empty state. -/
theorem C9_null_result_frame_witness :
    execStep okCtx subFail nA [] "completed" 0 =
      .next (stamp { initLog nA with
        inputs_used := [],
        status := "success",
        output := .null }) [] "completed" 1 :=
  C9_null_result_frame okCtx subFail nA mCard { name := "m", params := [], returns := [] }
    "http://x" ⟨[], []⟩ [] "completed" 0 rfl rfl rfl
    (by intro h; exact absurd h.1 (by decide)) rfl rfl rfl

/-- C5 counterexample: an empty workflow run seeded with a non-empty initial
state returns an empty final state (line 285 returns final_state={}), so the
final state does not equal the initial state as the claim requires: the
returned state lacks the key x that the initial state binds. -/
theorem C5_counterexample :
    execute_workflow_graph okCtx 1 [] [] [("x", .int 1)] 0 =
      .ok ⟨⟨"completed", [], []⟩, 0, []⟩ ∧
    (([] : Dict).lookup "x" = none) ∧
    (([("x", Value.int 1)] : Dict).lookup "x" = some (.int 1)) := by
  refine ⟨?_, rfl, rfl⟩
  simp [execute_workflow_graph, execFrame, topological_sort, kahnRun, kahnLoop,
    inDegreeAfterEdges, initInDegree, retainedEdges, nodeIds]

/-- C5 as amended: for every initial state, executing a workflow with an empty
step set returns verdict completed, an empty log list, and an EMPTY final
state (the caller-supplied initial state is not echoed back). -/
theorem C5_empty_workflow (C : Ctx) (fuel : Nat) (edges : List WorkflowEdge)
    (initial : Dict) (k : Nat) :
    execute_workflow_graph C fuel [] edges initial k =
      .ok ⟨⟨"completed", [], []⟩, k, []⟩ := by
  cases fuel <;>
    simp [execute_workflow_graph, execFrame, topological_sort, kahnRun, kahnLoop,
      inDegreeAfterEdges, initInDegree, retainedEdges, nodeIds]

/-- C6 counterexample: in a two-step workflow whose first remote call times
out, the engine records the timeout as the step's error and returns failed at
once with a single log entry: the remaining scheduled step b is never
attempted, refuting that execution of the remaining steps continues. -/
theorem C6_counterexample :
    execute_workflow_graph toCtx 1 [nA, nB] [] [] 0 =
      .ok ⟨⟨"failed",
        [{ nodeId := "a", agent := "ag", method := "m", status := "error",
           inputs_used := [],
           output := .obj [("error", .obj [("message", .str "Request timed out"),
             ("code", .int (-32000))])],
           duration_ms := some 0, details := none }], []⟩, 1, ["failed"]⟩ := by
  simp [execute_workflow_graph, execFrame, topological_sort, kahnRun, kahnLoop,
    inDegreeAfterEdges, initInDegree, retainedEdges, nodeIds, successorsOf, processSuccs,
    decrStep, decrKey, execLoop, execStep, stepBody, stepBase, stepDefault, stepFanout,
    lookupNode, _get_agent_details, toCtx, mkCtx, demoCache, mCard, dbCard, compCard,
    selfCard, nA, nB, effectiveUrl, pyOrStr, bindParams, bindAux, a2a_call, initLog,
    stamp, resultKey, List.lookup]

/-- C6 as amended: a timeout on an ordinary step is classified as the -32000
AgentError, recorded as that step's error log entry, and the workflow returns
failed IMMEDIATELY as a structured response: the remaining scheduled steps are
not attempted (the returned logs end at the timed-out step and the trace stops
at failed). -/
theorem C6_timeout_fatal (C : Ctx) (sub : SubExec) (nodes : List WorkflowNode)
    (nid : String) (rest : List String) (state : Dict) (ws : String) (k : Nat)
    (logs : List ExecutionLog) (node : WorkflowNode) (card : AgentCard)
    (mdef : MethodDef) (u : String) (b : BindOut)
    (hnode : lookupNode nodes nid = some node)
    (hcard : _get_agent_details node.data.agent C.cache = some card)
    (hnc : card.is_composite = false)
    (hurl : effectiveUrl card = some u)
    (hord : ¬(node.data.agent = "dbservice_agent" ∧ node.data.method = "create_record"))
    (hm : card.methods.find? (fun m => m.name == node.data.method) = some mdef)
    (hbind : bindParams C mdef.params state = .ok b)
    (horacle : C.oracle k = .readTimeout) :
    execLoop (execStep C sub) nodes (nid :: rest) state ws k logs =
      .ok ⟨⟨"failed", logs ++ [stamp { initLog node with
          inputs_used := b.recorded,
          status := "error",
          output := .obj [("error", .obj [("message", .str "Request timed out"),
            ("code", .int (-32000))])] }],
        state⟩, k + 1, ["failed"]⟩ := by
  simp only [execLoop, hnode, execStep, stepBody, hcard, hnc, stepBase, hurl,
    Bool.false_eq_true, if_false, if_neg hord, stepDefault, hm, hbind, horacle, a2a_call]

/-- Witness for C6 as amended, on the concrete two-step workflow. -/
theorem C6_timeout_fatal_witness :
    execLoop (execStep toCtx subFail) [nA, nB] ["a", "b"] [] "completed" 0 [] =
      .ok ⟨⟨"failed", [] ++ [stamp { initLog nA with
          inputs_used := [],
          status := "error",
          output := .obj [("error", .obj [("message", .str "Request timed out"),
            ("code", .int (-32000))])] }],
        []⟩, 1, ["failed"]⟩ :=
  C6_timeout_fatal toCtx subFail [nA, nB] "a" ["b"] [] "completed" 0 [] nA mCard
    { name := "m", params := [], returns := [] } "http://x" ⟨[], []⟩ rfl rfl rfl rfl
    (by intro h; exact absurd h.1 (by decide)) rfl rfl rfl

/-- Verdict ranks are bounded by the rank of failed. -/
theorem rank_le_two (s : String) : rank s ≤ 2 := by
  unfold rank
  split <;> omega

theorem rank_le_one_of_ne_failed (s : String) (h1 : goodStatus s) (h2 : s ≠ "failed") :
    rank s ≤ 1 := by
  rcases h1 with h | h | h <;> simp [h, rank] at h2 ⊢

theorem stepComposite_rank (sub : SubExec) (hsub : SubGood sub)
    (cdef : CompositeAgentDefinition) (entry : ExecutionLog)
    (state : Dict) (ws : String) (k : Nat)
    (hws : goodStatus ws) (hne : ws ≠ "failed")
    (out : StepOut) (hout : stepComposite sub cdef entry state ws k = .ok out) :
    (∀ e st2 ws2 k2, out = .next e st2 ws2 k2 →
       goodStatus ws2 ∧ ws2 ≠ "failed" ∧ rank ws ≤ rank ws2) ∧
    (∀ e st2 ws2 k2, out = .halt e st2 ws2 k2 →
       goodStatus ws2 ∧ rank ws ≤ rank ws2) := by
  unfold stepComposite at hout
  split at hout
  · exact absurd hout (by simp)
  · exact absurd hout (by simp)
  · rename_i sub_r heq
    have hgood := hsub _ _ _ _ _ heq
    split at hout
    · rename_i hnc
      split at hout
      · -- sub failed: halt with "failed"
        rename_i hf
        rw [Except.ok.injEq] at hout
        subst hout
        refine ⟨(fun e st2 ws2 k2 h => nomatch h), fun e st2 ws2 k2 h => ?_⟩
        cases h
        exact ⟨Or.inr (Or.inr rfl), rank_le_two ws⟩
      · -- sub partial (or other non-completed legal): next with sub status
        rename_i hf
        rw [Except.ok.injEq] at hout
        subst hout
        refine ⟨fun e st2 ws2 k2 h => ?_, fun e st2 ws2 k2 h => nomatch h⟩
        cases h
        have hp : sub_r.resp.status = "partial_success" := by
          rcases hgood with h | h | h
          · exact absurd h hnc
          · exact h
          · exact absurd h hf
        refine ⟨Or.inr (Or.inl hp), ?_, ?_⟩
        · rw [hp]; decide
        · exact le_trans (rank_le_one_of_ne_failed ws hws hne) (by rw [hp]; decide)
    · -- sub completed: next with unchanged ws
      rw [Except.ok.injEq] at hout
      subst hout
      refine ⟨fun e st2 ws2 k2 h => ?_, fun e st2 ws2 k2 h => nomatch h⟩
      cases h
      exact ⟨hws, hne, le_refl _⟩

theorem stepBase_rank (C : Ctx) (node : WorkflowNode) (card : AgentCard)
    (entry : ExecutionLog) (state : Dict) (ws : String) (k : Nat)
    (hws : goodStatus ws) (hne : ws ≠ "failed")
    (out : StepOut) (hout : stepBase C node card entry state ws k = .ok out) :
    (∀ e st2 ws2 k2, out = .next e st2 ws2 k2 →
       goodStatus ws2 ∧ ws2 ≠ "failed" ∧ rank ws ≤ rank ws2) ∧
    (∀ e st2 ws2 k2, out = .halt e st2 ws2 k2 →
       goodStatus ws2 ∧ rank ws ≤ rank ws2) := by
  unfold stepBase at hout
  split at hout
  · exact absurd hout (by simp)
  · split at hout
    · -- fan-out special case
      unfold stepFanout at hout
      split at hout
      · rename_i items _heq
        split at hout
        · -- empty list: next with unchanged ws
          rw [Except.ok.injEq] at hout
          subst hout
          refine ⟨fun e st2 ws2 k2 h => ?_, (fun e st2 ws2 k2 h => nomatch h)⟩
          cases h
          exact ⟨hws, hne, le_refl _⟩
        · simp only [] at hout
          split at hout
          · -- some item errors
            split at hout
            · -- saved = 0: total failure, halt with "failed"
              rw [if_pos rfl] at hout
              rw [Except.ok.injEq] at hout
              subst hout
              refine ⟨(fun e st2 ws2 k2 h => nomatch h), fun e st2 ws2 k2 h => ?_⟩
              cases h
              exact ⟨Or.inr (Or.inr rfl), rank_le_two ws⟩
            · -- saved > 0: partial failure, next with "partial_success"
              rw [if_neg (by decide)] at hout
              rw [Except.ok.injEq] at hout
              subst hout
              refine ⟨fun e st2 ws2 k2 h => ?_, (fun e st2 ws2 k2 h => nomatch h)⟩
              cases h
              exact ⟨Or.inr (Or.inl rfl), by decide,
                le_trans (rank_le_one_of_ne_failed ws hws hne) (by decide)⟩
          · -- no item errors: next with unchanged ws
            rw [Except.ok.injEq] at hout
            subst hout
            refine ⟨fun e st2 ws2 k2 h => ?_, (fun e st2 ws2 k2 h => nomatch h)⟩
            cases h
            exact ⟨hws, hne, le_refl _⟩
      · exact absurd hout (by simp)
    · -- default handler
      unfold stepDefault at hout
      split at hout
      · exact absurd hout (by simp)
      · split at hout
        · exact absurd hout (by simp)
        · split at hout
          · exact absurd hout (by simp)
          · exact absurd hout (by simp)
          · rw [Except.ok.injEq] at hout
            subst hout
            refine ⟨fun e st2 ws2 k2 h => ?_, (fun e st2 ws2 k2 h => nomatch h)⟩
            cases h
            exact ⟨hws, hne, le_refl _⟩

theorem stepBody_rank (C : Ctx) (sub : SubExec) (hsub : SubGood sub)
    (node : WorkflowNode) (state : Dict) (ws : String) (k : Nat)
    (hws : goodStatus ws) (hne : ws ≠ "failed")
    (out : StepOut) (hout : stepBody C sub node state ws k = .ok out) :
    (∀ e st2 ws2 k2, out = .next e st2 ws2 k2 →
       goodStatus ws2 ∧ ws2 ≠ "failed" ∧ rank ws ≤ rank ws2) ∧
    (∀ e st2 ws2 k2, out = .halt e st2 ws2 k2 →
       goodStatus ws2 ∧ rank ws ≤ rank ws2) := by
  unfold stepBody at hout
  split at hout
  · exact absurd hout (by simp)
  · split at hout
    · exact stepComposite_rank sub hsub _ _ _ _ _ hws hne out hout
    · exact stepBase_rank C node _ _ _ _ _ hws hne out hout

theorem execStep_rank (C : Ctx) (sub : SubExec) (hsub : SubGood sub)
    (node : WorkflowNode) (state : Dict) (ws : String) (k : Nat)
    (hws : goodStatus ws) (hne : ws ≠ "failed") :
    (∀ e st2 ws2 k2, execStep C sub node state ws k = .next e st2 ws2 k2 →
       goodStatus ws2 ∧ ws2 ≠ "failed" ∧ rank ws ≤ rank ws2) ∧
    (∀ e st2 ws2 k2, execStep C sub node state ws k = .halt e st2 ws2 k2 →
       goodStatus ws2 ∧ rank ws ≤ rank ws2) := by
  unfold execStep
  split
  · rename_i out hout
    exact stepBody_rank C sub hsub node state ws k hws hne out hout
  · refine ⟨(fun e st2 ws2 k2 h => nomatch h), fun e st2 ws2 k2 h => ?_⟩
    cases h
    exact ⟨Or.inr (Or.inr rfl), rank_le_two ws⟩
  · refine ⟨(fun e st2 ws2 k2 h => nomatch h), fun e st2 ws2 k2 h => ?_⟩
    cases h
    exact ⟨Or.inr (Or.inr rfl), rank_le_two ws⟩
  · exact ⟨(fun e st2 ws2 k2 h => nomatch h), (fun e st2 ws2 k2 h => nomatch h)⟩

/-- Along one frame's loop, each processed step only moves the workflow
status toward a worse rank, statuses stay in the three-valued set, and the
final status is the last trace entry. -/
theorem execLoop_rank (C : Ctx) (sub : SubExec) (hsub : SubGood sub)
    (nodes : List WorkflowNode) :
    ∀ (order : List String) (state : Dict) (ws : String) (k : Nat)
      (logs : List ExecutionLog) (r : LoopOut),
      goodStatus ws → ws ≠ "failed" →
      execLoop (execStep C sub) nodes order state ws k logs = .ok r →
      List.Chain' (fun a b => rank a ≤ rank b) (ws :: r.trace) ∧
      goodStatus r.resp.status ∧
      rank ws ≤ rank r.resp.status ∧
      (r.trace = [] ∧ r.resp.status = ws ∨ r.trace.getLast? = some r.resp.status) := by
  intro order
  induction order with
  | nil =>
      intro state ws k logs r hws hne h
      rw [execLoop, Except.ok.injEq] at h
      subst h
      exact ⟨List.chain'_singleton ws, hws, le_refl _, Or.inl ⟨rfl, rfl⟩⟩
  | cons nid rest ih =>
      intro state ws k logs r hws hne h
      rw [execLoop] at h
      split at h
      · exact absurd h (by simp)
      · rename_i node hnode
        split at h
        · -- next
          rename_i e st2 ws2 k2 hstep
          obtain ⟨hg2, hne2, hr2⟩ :=
            (execStep_rank C sub hsub node state ws k hws hne).1 e st2 ws2 k2 hstep
          split at h
          · rename_i r2 hrec
            rw [Except.ok.injEq] at h
            subst h
            obtain ⟨hch, hgs, hrs, hlast⟩ :=
              ih st2 ws2 k2 (logs ++ [e]) r2 hg2 hne2 hrec
            refine ⟨List.Chain'.cons hr2 hch, hgs, le_trans hr2 hrs, Or.inr ?_⟩
            rcases hlast with ⟨htr, hst⟩ | hl
            · simp [htr, hst]
            · cases htr2 : r2.trace with
              | nil => rw [htr2] at hl; exact absurd hl (by simp)
              | cons a l =>
                  rw [htr2] at hl
                  simpa [htr2] using hl
          · exact absurd h (by simp)
        · -- halt
          rename_i e st2 ws2 k2 hstep
          obtain ⟨hg2, hr2⟩ :=
            (execStep_rank C sub hsub node state ws k hws hne).2 e st2 ws2 k2 hstep
          rw [Except.ok.injEq] at h
          subst h
          exact ⟨List.chain'_pair.mpr hr2, hg2, hr2, Or.inr rfl⟩
        · -- raised
          exact absurd h (by simp)

/-- One whole frame: any successful response has a legal verdict and a
monotone status trace starting from completed. -/
theorem execFrame_rank (C : Ctx) (sub : SubExec) (hsub : SubGood sub)
    (nodes : List WorkflowNode) (edges : List WorkflowEdge) (initial : Dict)
    (k : Nat) (r : LoopOut)
    (h : execFrame C sub nodes edges initial k = .ok r) :
    List.Chain' (fun a b => rank a ≤ rank b) ("completed" :: r.trace) ∧
    goodStatus r.resp.status ∧
    (r.trace = [] ∨ r.trace.getLast? = some r.resp.status) := by
  rw [execFrame] at h
  split at h
  · exact absurd h (by simp)
  · split at h
    · exact absurd h (by simp)
    · split at h
      · rw [Except.ok.injEq] at h
        subst h
        exact ⟨List.chain'_singleton _, Or.inl rfl, Or.inl rfl⟩
      · split at h
        · rename_i r2 hrec
          rw [Except.ok.injEq] at h
          subst h
          obtain ⟨hch, hgs, _, hlast⟩ := execLoop_rank C sub hsub nodes _ _ _ _ _ r2
            (Or.inl rfl) (by decide) hrec
          exact ⟨hch, hgs, hlast.imp (fun hx => hx.1) id⟩
        · exact absurd h (by simp)
        · rw [Except.ok.injEq] at h
          subst h
          exact ⟨List.chain'_singleton _, Or.inr (Or.inr rfl), Or.inl rfl⟩

/-- By induction on the recursion budget: every successful execution
reports one of the three legal verdicts. -/
theorem execGo_good (C : Ctx) : ∀ fuel, SubGood (execute_workflow_graph C fuel) := by
  intro fuel
  induction fuel with
  | zero =>
      intro ns es st kk r h
      exact (execFrame_rank C _ (fun _ _ _ _ _ h2 => Except.noConfusion h2) ns es st kk r h).2.1
  | succ f ih =>
      intro ns es st kk r h
      exact (execFrame_rank C _ ih ns es st kk r h).2.1

/-- C3: a composite step whose nested execution ends failed makes the parent
record the step as failed, end its own execution with verdict failed and
attempt no further scheduled steps (its response closes with exactly this one
extra log entry); a nested partial_success makes the parent continue with the
remaining scheduled steps under verdict partial_success, and whatever the
remaining steps do, the parent's final verdict is never completed. -/
theorem C3_composite_propagation (C : Ctx) (f : Nat) (nodes : List WorkflowNode)
    (nid : String) (rest : List String) (state : Dict) (ws : String) (k : Nat)
    (logs : List ExecutionLog) (node : WorkflowNode) (card : AgentCard)
    (cdef : CompositeAgentDefinition) (r2 : LoopOut)
    (hnode : lookupNode nodes nid = some node)
    (hcard : _get_agent_details node.data.agent C.cache = some card)
    (hcomp : card.is_composite = true)
    (hdef : card.composite_definition = some cdef)
    (hsub : execute_workflow_graph C f cdef.nodes cdef.edges state k = .ok r2) :
    (r2.resp.status = "failed" →
      execLoop (execStep C (execute_workflow_graph C f)) nodes (nid :: rest) state ws k logs =
        .ok ⟨⟨"failed",
          logs ++ [stamp { initLog node with
            inputs_used := state,
            status := "failed",
            output := .obj [("message",
              .str "Composite execution finished with status: failed")],
            details := some (r2.resp.logs.map ExecutionLog.toValue) }],
          dictUpdate state r2.resp.final_state⟩, r2.k, ["failed"]⟩) ∧
    (r2.resp.status = "partial_success" →
      (execLoop (execStep C (execute_workflow_graph C f)) nodes (nid :: rest) state ws k logs =
        match execLoop (execStep C (execute_workflow_graph C f)) nodes rest
            (dictUpdate state r2.resp.final_state) "partial_success" r2.k
            (logs ++ [stamp { initLog node with
              inputs_used := state,
              status := "partial_success",
              output := .obj [("message",
                .str "Composite execution finished with status: partial_success")],
              details := some (r2.resp.logs.map ExecutionLog.toValue) }]) with
        | .ok rr => .ok ⟨rr.resp, rr.k, "partial_success" :: rr.trace⟩
        | .error f2 => .error f2) ∧
      (∀ rf, execLoop (execStep C (execute_workflow_graph C f)) nodes
          (nid :: rest) state ws k logs = .ok rf →
        rf.resp.status ≠ "completed")) := by
  constructor
  · intro hfail
    simp only [execLoop, hnode, execStep, stepBody, hcard, hcomp, hdef, stepComposite,
      hsub, hfail, ne_eq, String.reduceEq, not_false_iff, if_true, if_pos]
    rfl
  · intro hpart
    have heq : execLoop (execStep C (execute_workflow_graph C f)) nodes
        (nid :: rest) state ws k logs =
        match execLoop (execStep C (execute_workflow_graph C f)) nodes rest
            (dictUpdate state r2.resp.final_state) "partial_success" r2.k
            (logs ++ [stamp { initLog node with
              inputs_used := state,
              status := "partial_success",
              output := .obj [("message",
                .str "Composite execution finished with status: partial_success")],
              details := some (r2.resp.logs.map ExecutionLog.toValue) }]) with
        | .ok rr => .ok ⟨rr.resp, rr.k, "partial_success" :: rr.trace⟩
        | .error f2 => .error f2 := by
      simp only [execLoop, hnode, execStep, stepBody, hcard, hcomp, hdef, stepComposite,
        hsub, hpart, ne_eq, String.reduceEq, not_false_iff, if_true, if_pos, if_false]
      rfl
    refine ⟨heq, ?_⟩
    intro rf hrf
    rw [heq] at hrf
    split at hrf
    · rename_i rr hrec
      rw [Except.ok.injEq] at hrf
      subst hrf
      obtain ⟨_, hgs, hrs, _⟩ := execLoop_rank C (execute_workflow_graph C f)
        (execGo_good C f) nodes rest _ _ _ _ rr (Or.inr (Or.inl rfl)) (by decide) hrec
      intro hc
      rw [hc] at hrs
      exact absurd hrs (by decide)
    · exact absurd hrf (by simp)

/-- Witness for C3: a composite step whose nested single-step graph times out. -/
theorem C3_composite_propagation_witness :
    (tResp.resp.status = "failed" →
      execLoop (execStep toCtx (execute_workflow_graph toCtx 0)) [nComp] ["c1"]
          [] "completed" 0 [] =
        .ok ⟨⟨"failed",
          [] ++ [stamp { initLog nComp with
            inputs_used := [],
            status := "failed",
            output := .obj [("message",
              .str "Composite execution finished with status: failed")],
            details := some (tResp.resp.logs.map ExecutionLog.toValue) }],
          dictUpdate [] tResp.resp.final_state⟩, tResp.k, ["failed"]⟩) ∧
    (tResp.resp.status = "partial_success" →
      (execLoop (execStep toCtx (execute_workflow_graph toCtx 0)) [nComp] ["c1"]
          [] "completed" 0 [] =
        match execLoop (execStep toCtx (execute_workflow_graph toCtx 0)) [nComp] []
            (dictUpdate [] tResp.resp.final_state) "partial_success" tResp.k
            ([] ++ [stamp { initLog nComp with
              inputs_used := [],
              status := "partial_success",
              output := .obj [("message",
                .str "Composite execution finished with status: partial_success")],
              details := some (tResp.resp.logs.map ExecutionLog.toValue) }]) with
        | .ok rr => .ok ⟨rr.resp, rr.k, "partial_success" :: rr.trace⟩
        | .error f2 => .error f2) ∧
      (∀ rf, execLoop (execStep toCtx (execute_workflow_graph toCtx 0)) [nComp] ["c1"]
          [] "completed" 0 [] = .ok rf →
        rf.resp.status ≠ "completed")) :=
  C3_composite_propagation toCtx 0 [nComp] "c1" [] [] "completed" 0 [] nComp
    compCard compDef tResp rfl rfl rfl rfl
    (by
      simp [execute_workflow_graph, execFrame, topological_sort, kahnRun, kahnLoop,
        inDegreeAfterEdges, initInDegree, retainedEdges, nodeIds, successorsOf,
        processSuccs, decrStep, decrKey, execLoop, execStep, stepBody, stepBase,
        stepDefault, stepFanout, lookupNode, _get_agent_details, toCtx, mkCtx, demoCache,
        mCard, dbCard, compCard, selfCard, compDef, subNode, effectiveUrl, pyOrStr,
        bindParams, bindAux, a2a_call, initLog, stamp, resultKey, List.lookup,
        tResp, tEntry])

/-- C8: within a single frame of execution, the workflow verdict only widens
monotonically along completed, partial_success, failed: the sequence of
workflow_status values after each processed step is rank-monotone starting
from completed, every verdict stays in the three-valued set, and the final
verdict is the last status of the trace. -/
theorem C8_monotonic_verdict (C : Ctx) (fuel : Nat) (nodes : List WorkflowNode)
    (edges : List WorkflowEdge) (initial : Dict) (k : Nat) (r : LoopOut)
    (h : execute_workflow_graph C fuel nodes edges initial k = .ok r) :
    List.Chain' (fun a b => rank a ≤ rank b) ("completed" :: r.trace) ∧
    goodStatus r.resp.status ∧
    (r.trace = [] ∨ r.trace.getLast? = some r.resp.status) := by
  cases fuel with
  | zero =>
      exact execFrame_rank C _ (fun _ _ _ _ _ h2 => Except.noConfusion h2)
        nodes edges initial k r h
  | succ f =>
      exact execFrame_rank C _ (execGo_good C f) nodes edges initial k r h

/-- Witness for C8: the two-step workflow whose first call times out ends
failed with the monotone trace [failed]. -/
theorem C8_monotonic_verdict_witness :
    List.Chain' (fun a b => rank a ≤ rank b) ("completed" :: ["failed"]) ∧
    goodStatus "failed" ∧
    ((["failed"] : List String) = [] ∨
      (["failed"] : List String).getLast? = some "failed") :=
  C8_monotonic_verdict toCtx 1 [nA, nB] [] [] 0
    ⟨⟨"failed",
      [{ nodeId := "a", agent := "ag", method := "m", status := "error",
         inputs_used := [],
         output := .obj [("error", .obj [("message", .str "Request timed out"),
           ("code", .int (-32000))])],
         duration_ms := some 0, details := none }], []⟩, 1, ["failed"]⟩
    (by
      simp [execute_workflow_graph, execFrame, topological_sort, kahnRun, kahnLoop,
        inDegreeAfterEdges, initInDegree, retainedEdges, nodeIds, successorsOf,
        processSuccs, decrStep, decrKey, execLoop, execStep, stepBody, stepBase,
        stepDefault, stepFanout, lookupNode, _get_agent_details, toCtx, mkCtx, demoCache,
        mCard, dbCard, compCard, selfCard, nA, nB, effectiveUrl, pyOrStr, bindParams,
        bindAux, a2a_call, initLog, stamp, resultKey, List.lookup])

/-- C7 counterexample: a truly unexpected internal error arising during a
step's processing is NOT converted into a returned failed result.  On a
composite step that exhausts the recursion budget (Python RecursionError at
the recursive call), execute_workflow_graph raises HTTPException(500) to its
caller instead of returning a structured response with a synthetic log. -/
theorem C7_counterexample :
    execute_workflow_graph okCtx 0 [nSelf] [] [] 0 =
      .error (.httpExc 500
        "Unexpected internal error processing node: maximum recursion depth exceeded", 0) := by
  simp [execute_workflow_graph, execFrame, topological_sort, kahnRun, kahnLoop,
    inDegreeAfterEdges, initInDegree, retainedEdges, nodeIds, successorsOf, processSuccs,
    decrStep, decrKey, execLoop, execStep, stepBody, stepComposite, lookupNode,
    _get_agent_details, okCtx, mkCtx, demoCache, mCard, dbCard, compCard, selfCard,
    selfDef, nSelf, initLog, stamp, List.lookup]

/-- C7 as amended: an unexpected internal error during a node's processing is
wrapped into HTTPException(500) naming node processing and re-raised (the
frame's logs are discarded rather than returned); an HTTPException escaping
the step loop is re-raised by the frame as an uncaught fault; and when the
fault comes out of a nested composite execution, the parent frame catches it
as that step's error and returns a structured failed response naming the
step, not the orchestration. -/
theorem C7_unexpected_error_conversion
    (C : Ctx) (sub : SubExec) (node : WorkflowNode) (state : Dict) (ws : String)
    (k : Nat) (nodes : List WorkflowNode) (edges : List WorkflowEdge)
    (initial : Dict) (k0 : Nat) (ord : List String) (card : AgentCard)
    (cdef : CompositeAgentDefinition) :
    (∀ m entry k2, stepBody C sub node state ws k = .error (.other m, entry, k2) →
      execStep C sub node state ws k =
        .raised (.httpExc 500 ("Unexpected internal error processing node: " ++ m)) k2) ∧
    (∀ code detail st k2, topological_sort nodes edges = .ok ord → ord ≠ [] →
      execLoop (execStep C sub) nodes ord initial "completed" k0 [] =
        .error (.httpExc code detail, st, k2) →
      execFrame C sub nodes edges initial k0 = .error (.httpExc code detail, k2)) ∧
    (∀ code detail k2, _get_agent_details node.data.agent C.cache = some card →
      card.is_composite = true → card.composite_definition = some cdef →
      sub cdef.nodes cdef.edges state k = .error (.httpExc code detail, k2) →
      execStep C sub node state ws k =
        .halt (stamp { initLog node with
          inputs_used := state,
          status := "error",
          output := .obj [("error", .obj [("message", .str detail),
            ("code", .int code)])] })
          state "failed" k2) := by
  refine ⟨?_, ?_, ?_⟩
  · intro m entry k2 h
    simp only [execStep, h]
  · intro code detail st k2 hsort hord hloop
    have hie : ord.isEmpty = false := by
      cases ord with
      | nil => exact absurd rfl hord
      | cons a b => rfl
    rw [execFrame, hsort]
    simp only [hie, Bool.false_eq_true, if_false, Bool.and_false, Bool.false_and,
      Bool.not_false, hloop]
  · intro code detail k2 hcard hcomp hdef hsub
    simp only [execStep, stepBody, hcard, hcomp, hdef, stepComposite, hsub]

/-- Witness for C7 as amended, on the self-recursive composite. -/
theorem C7_unexpected_error_conversion_witness :
    (execStep okCtx recSub nSelf [] "completed" 0 =
      .raised (.httpExc 500 ("Unexpected internal error processing node: " ++
        "maximum recursion depth exceeded")) 0) ∧
    (execFrame okCtx recSub [nSelf] [] [] 0 =
      .error (.httpExc 500
        "Unexpected internal error processing node: maximum recursion depth exceeded", 0)) ∧
    (execStep okCtx (execute_workflow_graph okCtx 0) nSelf [] "completed" 0 =
      .halt (stamp { initLog nSelf with
        inputs_used := [],
        status := "error",
        output := .obj [("error", .obj [("message",
          .str "Unexpected internal error processing node: maximum recursion depth exceeded"),
          ("code", .int 500)])] })
        [] "failed" 0) := by
  obtain ⟨h1, h2, -⟩ := C7_unexpected_error_conversion okCtx recSub nSelf [] "completed" 0
    [nSelf] [] [] 0 ["r1"] selfCard selfDef
  obtain ⟨-, -, h3⟩ := C7_unexpected_error_conversion okCtx
    (execute_workflow_graph okCtx 0) nSelf [] "completed" 0
    [nSelf] [] [] 0 ["r1"] selfCard selfDef
  refine ⟨h1 "maximum recursion depth exceeded" { initLog nSelf with inputs_used := [] } 0 rfl,
    h2 500 "Unexpected internal error processing node: maximum recursion depth exceeded"
      [] 0 ?_ (by simp) rfl,
    h3 500 "Unexpected internal error processing node: maximum recursion depth exceeded"
      0 rfl rfl rfl ?_⟩
  · simp [topological_sort, kahnRun, kahnLoop, inDegreeAfterEdges, initInDegree,
      retainedEdges, nodeIds, nSelf, successorsOf, processSuccs, decrStep, decrKey,
      List.lookup]
  · simp [execute_workflow_graph, execFrame, topological_sort, kahnRun, kahnLoop,
      inDegreeAfterEdges, initInDegree, retainedEdges, nodeIds, successorsOf,
      processSuccs, decrStep, decrKey, execLoop, execStep, stepBody, stepComposite,
      lookupNode, _get_agent_details, okCtx, mkCtx, demoCache, mCard, dbCard, compCard,
      selfCard, selfDef, initLog, stamp, List.lookup]

/-! ### C1: correctness of the Kahn scheduler -/

theorem countP_or_disj {α : Type} (p p1 p2 : α → Bool) (l : List α)
    (h : ∀ a ∈ l, (p a = (p1 a || p2 a)) ∧ ¬(p1 a = true ∧ p2 a = true)) :
    l.countP p = l.countP p1 + l.countP p2 := by
  induction l with
  | nil => simp
  | cons a l ih =>
      obtain ⟨hp, hd⟩ := h a (List.mem_cons_self _ _)
      simp only [List.countP_cons, hp]
      rw [ih (fun b hb => h b (List.mem_cons_of_mem _ hb))]
      cases h1 : p1 a <;> cases h2 : p2 a <;> simp_all <;> omega

theorem procCnt_le_inCnt (E : List WorkflowEdge) (sorted : List String) (x : String) :
    procCnt E sorted x ≤ inCnt E x := by
  unfold procCnt inCnt
  apply List.countP_mono_left
  intro e _ h
  exact (Bool.and_elim_left h)

theorem procCnt_append_single (E : List WorkflowEdge) (sorted : List String)
    (u x : String) (hu : u ∉ sorted) :
    procCnt E (sorted ++ [u]) x = procCnt E sorted x + edgeCnt E u x := by
  unfold procCnt edgeCnt
  apply countP_or_disj
  intro e _
  constructor
  · by_cases h1 : e.target = x <;> by_cases h2 : e.source ∈ sorted <;>
      by_cases h3 : e.source = u <;>
      simp [h1, h2, h3, List.mem_append]
  · rintro ⟨hp1, hp2⟩
    simp only [Bool.and_eq_true, decide_eq_true_eq] at hp1 hp2
    exact hu (hp2.1 ▸ hp1.2)

theorem all_sources_in_of_procCnt_eq (E : List WorkflowEdge) (sorted : List String)
    (u : String) (h : inCnt E u = procCnt E sorted u) :
    ∀ e ∈ E, e.target = u → e.source ∈ sorted := by
  induction E with
  | nil => simp
  | cons e E' ih =>
      intro e2 he2 ht
      have hle := procCnt_le_inCnt E' sorted u
      unfold inCnt procCnt at h hle
      simp only [List.countP_cons] at h
      rcases List.mem_cons.mp he2 with rfl | hmem
      · by_cases h2 : e2.source ∈ sorted
        · exact h2
        · simp [ht, h2] at h
          omega
      · refine ih ?_ e2 hmem ht
        unfold inCnt procCnt
        by_cases h1 : e.target = u
        · by_cases h2 : e.source ∈ sorted
          · simp [h1, h2] at h
            omega
          · simp [h1, h2] at h
            omega
        · simp [h1] at h
          omega

theorem exists_unprocessed_of_lt (E : List WorkflowEdge) (sorted : List String)
    (x : String) (h : procCnt E sorted x < inCnt E x) :
    ∃ e ∈ E, e.target = x ∧ e.source ∉ sorted := by
  induction E with
  | nil => simp [procCnt, inCnt] at h
  | cons e E' ih =>
      unfold inCnt procCnt at h
      simp only [List.countP_cons] at h
      by_cases h1 : e.target = x
      · by_cases h2 : e.source ∈ sorted
        · simp [h1, h2] at h
          obtain ⟨e2, hm, ht, hs⟩ := ih (by unfold inCnt procCnt; omega)
          exact ⟨e2, List.mem_cons_of_mem _ hm, ht, hs⟩
        · exact ⟨e, List.mem_cons_self _ _, h1, h2⟩
      · simp [h1] at h
        obtain ⟨e2, hm, ht, hs⟩ := ih (by unfold inCnt procCnt; omega)
        exact ⟨e2, List.mem_cons_of_mem _ hm, ht, hs⟩

theorem count_successorsOf (nodes : List WorkflowNode) (edges : List WorkflowEdge)
    (u x : String) :
    (successorsOf nodes edges u).count x = edgeCnt (retainedEdges nodes edges) u x := by
  unfold successorsOf edgeCnt
  generalize retainedEdges nodes edges = E
  induction E with
  | nil => simp
  | cons e E' ih =>
      simp only [List.filter_cons, List.countP_cons]
      by_cases h1 : e.source = u
      · by_cases h2 : e.target = x
        · simp [h1, h2, List.count_cons, ih]
        · simp [h1, h2, List.count_cons, ih]
      · simp [h1, ih]

theorem lookup_decrKey (d : List (String × Int)) (v x : String) :
    (decrKey d v).lookup x = (d.lookup x).map (fun c => if x = v then c - 1 else c) := by
  induction d with
  | nil => simp [decrKey]
  | cons hd tl ih =>
      obtain ⟨k, c⟩ := hd
      rw [decrKey_cons]
      by_cases hx : x = k
      · by_cases hk : k = v
        · rw [if_pos hk]
          simp [List.lookup_cons, hx, hk]
        · rw [if_neg hk]
          simp [List.lookup_cons, hx, hk]
      · have hbeq : (x == k) = false := by
          simp [hx]
        by_cases hk : k = v
        · rw [if_pos hk]
          simp only [List.lookup_cons, hbeq, Bool.false_eq_true, if_false, ih]
        · rw [if_neg hk]
          simp only [List.lookup_cons, hbeq, Bool.false_eq_true, if_false, ih]

theorem keys_decrKey (d : List (String × Int)) (v : String) :
    (decrKey d v).map Prod.fst = d.map Prod.fst := by
  induction d with
  | nil => simp [decrKey]
  | cons hd tl ih =>
      obtain ⟨k, c⟩ := hd
      rw [decrKey_cons]
      by_cases hk : k = v
      · rw [if_pos hk]
        simp [ih]
      · rw [if_neg hk]
        simp [ih]

theorem lookup_bumpInDegree (d : List (String × Int)) (v x : String) :
    (bumpInDegree d v).lookup x = (d.lookup x).map (fun c => if x = v then c + 1 else c) := by
  induction d with
  | nil => simp [bumpInDegree]
  | cons hd tl ih =>
      obtain ⟨k, c⟩ := hd
      have hcons : bumpInDegree ((k, c) :: tl) v =
          (if k = v then (k, c + 1) else (k, c)) :: bumpInDegree tl v := by
        simp [bumpInDegree]
      rw [hcons]
      by_cases hx : x = k
      · by_cases hk : k = v
        · rw [if_pos hk]
          simp [List.lookup_cons, hx, hk]
        · rw [if_neg hk]
          simp [List.lookup_cons, hx, hk]
      · have hbeq : (x == k) = false := by
          simp [hx]
        by_cases hk : k = v
        · rw [if_pos hk]
          simp only [List.lookup_cons, hbeq, Bool.false_eq_true, if_false, ih]
        · rw [if_neg hk]
          simp only [List.lookup_cons, hbeq, Bool.false_eq_true, if_false, ih]

theorem keys_bumpInDegree (d : List (String × Int)) (v : String) :
    (bumpInDegree d v).map Prod.fst = d.map Prod.fst := by
  induction d with
  | nil => simp [bumpInDegree]
  | cons hd tl ih =>
      obtain ⟨k, c⟩ := hd
      by_cases hk : k = v
      · simp [bumpInDegree, hk] at ih ⊢
        exact ih
      · simp [bumpInDegree, hk] at ih ⊢
        exact ih

theorem lookup_foldBump (E : List WorkflowEdge) (d : List (String × Int)) (x : String) :
    ((E.foldl (fun d e => bumpInDegree d e.target) d).lookup x) =
      (d.lookup x).map (fun c => c + (inCnt E x : Int)) := by
  induction E generalizing d with
  | nil =>
      rcases h : d.lookup x with _ | c <;> simp [inCnt, h]
  | cons e E' ih =>
      simp only [List.foldl_cons]
      rw [ih, lookup_bumpInDegree]
      unfold inCnt
      simp only [List.countP_cons]
      rcases h : d.lookup x with _ | c
      · simp
      · by_cases ht : x = e.target
        · simp only [ht, if_pos rfl, decide_True, if_true, Option.map_some]
          simp only [Option.map]
          rw [Option.some.injEq]
          push_cast
          ring
        · have h2 : ¬ (e.target = x) := fun hh => ht hh.symm
          simp [ht, h2]

theorem keys_foldBump (E : List WorkflowEdge) (d : List (String × Int)) :
    (E.foldl (fun d e => bumpInDegree d e.target) d).map Prod.fst = d.map Prod.fst := by
  induction E generalizing d with
  | nil => rfl
  | cons e E' ih =>
      simp only [List.foldl_cons]
      rw [ih, keys_bumpInDegree]

theorem psFold_fst_lookup (L : List String) (d : List (String × Int)) (nq : List String)
    (x : String) :
    ((L.foldl decrStep (d, nq)).1).lookup x = (d.lookup x).map (fun c => c - (L.count x : Int)) := by
  induction L generalizing d nq with
  | nil =>
      rcases h : d.lookup x with _ | c <;> simp [h]
  | cons v rest ih =>
      simp only [List.foldl_cons]
      have hfst : ∀ p : List (String × Int) × List String, ∀ w, (decrStep p w).1 = decrKey p.1 w := by
        intro p w
        unfold decrStep
        by_cases h : (decrKey p.1 w).lookup w = some 0
        · simp [h]
        · simp [h]
      have hsnd : ∃ nq2, decrStep (d, nq) v = (decrKey d v, nq2) := by
        unfold decrStep
        by_cases h : (decrKey d v).lookup v = some 0
        · exact ⟨nq ++ [v], by simp [h]⟩
        · exact ⟨nq, by simp [h]⟩
      obtain ⟨nq2, heq⟩ := hsnd
      rw [heq, ih, lookup_decrKey]
      rcases h : d.lookup x with _ | c
      · simp
      · by_cases hv : x = v
        · simp only [hv, if_pos rfl, List.count_cons, beq_self_eq_true, if_true]
          simp only [Option.map]
          rw [Option.some.injEq]
          push_cast
          ring
        · have h2 : ¬ (v = x) := fun hh => hv hh.symm
          simp [hv, List.count_cons, h2]

theorem psFold_keys (L : List String) (d : List (String × Int)) (nq : List String) :
    ((L.foldl decrStep (d, nq)).1).map Prod.fst = d.map Prod.fst := by
  induction L generalizing d nq with
  | nil => rfl
  | cons v rest ih =>
      simp only [List.foldl_cons]
      have hsnd : ∃ nq2, decrStep (d, nq) v = (decrKey d v, nq2) := by
        unfold decrStep
        by_cases h : (decrKey d v).lookup v = some 0
        · exact ⟨nq ++ [v], by simp [h]⟩
        · exact ⟨nq, by simp [h]⟩
      obtain ⟨nq2, heq⟩ := hsnd
      rw [heq, ih, keys_decrKey]

theorem psFold_count (L : List String) (d : List (String × Int)) (nq : List String)
    (x : String) :
    ((L.foldl decrStep (d, nq)).2).count x = nq.count x + (if willFire d L x then 1 else 0) := by
  induction L generalizing d nq with
  | nil =>
      rcases h : d.lookup x with _ | c
      · simp [willFire, h]
      · simp only [List.foldl_nil, willFire, h]
        rw [if_neg (by simp <;> omega)]
        simp
  | cons v rest ih =>
      simp only [List.foldl_cons]
      by_cases hv : x = v
      · subst hv
        rcases hl : d.lookup x with _ | c
        · have hl2 : (decrKey d x).lookup x = none := by
            rw [lookup_decrKey, hl]
            rfl
          have hstep : decrStep (d, nq) x = (decrKey d x, nq) := by
            unfold decrStep
            simp [hl2]
          rw [hstep, ih]
          simp [willFire, hl, hl2]
        · have hl2 : (decrKey d x).lookup x = some (c - 1) := by
            rw [lookup_decrKey, hl]
            simp
          by_cases hc : c = 1
          · have hz : (decrKey d x).lookup x = some 0 := by
              rw [hl2, hc]
              norm_num
            have hstep : decrStep (d, nq) x = (decrKey d x, nq ++ [x]) := by
              unfold decrStep
              simp [hz]
            rw [hstep, ih]
            simp only [willFire, hl, hl2, hc, List.count_append, List.count_cons,
              List.count_nil, beq_self_eq_true, if_true]
            rw [if_neg (by simp <;> omega), if_pos (by simp <;> omega)]
          · have hz : ¬ ((decrKey d x).lookup x = some 0) := by
              rw [hl2]
              simp
              omega
            have hstep : decrStep (d, nq) x = (decrKey d x, nq) := by
              unfold decrStep
              simp [hz]
            rw [hstep, ih]
            simp only [willFire, hl, hl2, List.count_cons, beq_self_eq_true, if_true]
            by_cases hw : 1 ≤ c - 1 ∧ c - 1 ≤ (rest.count x : Int)
            · rw [if_pos (by simp; omega), if_pos (by simp; omega)]
            · rw [if_neg (by simp; omega), if_neg (by simp; omega)]
      · have hlx : (decrKey d v).lookup x = d.lookup x := by
          rw [lookup_decrKey]
          rcases h : d.lookup x with _ | c
          · rfl
          · simp [hv]
        have hstep : ∃ nq2, decrStep (d, nq) v = (decrKey d v, nq2) ∧ nq2.count x = nq.count x := by
          unfold decrStep
          by_cases hz : (decrKey d v).lookup v = some 0
          · refine ⟨nq ++ [v], by simp [hz], ?_⟩
            simp [List.count_append, List.count_cons, hv]
          · exact ⟨nq, by simp [hz], rfl⟩
        obtain ⟨nq2, heq, hcnt⟩ := hstep
        rw [heq, ih, hcnt]
        have hwf : willFire (decrKey d v) rest x = willFire d (v :: rest) x := by
          unfold willFire
          rw [hlx]
          rcases h : d.lookup x with _ | c
          · rfl
          · simp [List.count_cons, hv]
        rw [hwf]

theorem mem_fst_of_lookup_eq_some (d : List (String × Int)) (x : String) (c : Int)
    (h : d.lookup x = some c) : x ∈ d.map Prod.fst := by
  induction d with
  | nil => simp [List.lookup] at h
  | cons hd tl ih =>
      obtain ⟨k, v⟩ := hd
      by_cases hk : x = k
      · simp [hk]
      · have hbeq : (x == k) = false := by
          simp [hk]
        simp only [List.lookup_cons, hbeq] at h
        simp [ih h]

theorem lookup_eq_some_of_mem_of_nodup (d : List (String × Int)) (x : String) (c : Int)
    (hnd : (d.map Prod.fst).Nodup) (h : (x, c) ∈ d) : d.lookup x = some c := by
  induction d with
  | nil => simp at h
  | cons hd tl ih =>
      obtain ⟨k, v⟩ := hd
      simp only [List.map_cons, List.nodup_cons] at hnd
      rcases List.mem_cons.mp h with heq | hmem
      · rw [Prod.mk.injEq] at heq
        simp [List.lookup_cons, heq.1, heq.2]
      · have hk : ¬ x = k := by
          intro hh
          subst hh
          exact hnd.1 (by simpa using List.mem_map_of_mem Prod.fst hmem)
        have hbeq : (x == k) = false := by
          simp [hk]
        simp only [List.lookup_cons, hbeq]
        exact ih hnd.2 hmem

theorem mem_of_lookup_eq_some (d : List (String × Int)) (x : String) (c : Int)
    (h : d.lookup x = some c) : (x, c) ∈ d := by
  induction d with
  | nil => simp [List.lookup] at h
  | cons hd tl ih =>
      obtain ⟨k, v⟩ := hd
      by_cases hk : x = k
      · simp only [List.lookup_cons, hk, beq_self_eq_true] at h
        simp only [Option.some.injEq] at h
        simp [hk, h]
      · have hbeq : (x == k) = false := by
          simp [hk]
        simp only [List.lookup_cons, hbeq] at h
        simp [ih h]

theorem lookup_isSome_of_mem_fst (d : List (String × Int)) (x : String)
    (h : x ∈ d.map Prod.fst) : ∃ c, d.lookup x = some c := by
  induction d with
  | nil => simp at h
  | cons hd tl ih =>
      obtain ⟨k, v⟩ := hd
      by_cases hk : x = k
      · exact ⟨v, by simp [List.lookup_cons, hk]⟩
      · have hbeq : (x == k) = false := by
          simp [hk]
        obtain ⟨c, hc⟩ := ih (by simpa [hk] using h)
        refine ⟨c, ?_⟩
        simp only [List.lookup_cons, hbeq]
        exact hc

theorem procCnt_nil (E : List WorkflowEdge) (x : String) : procCnt E [] x = 0 := by
  unfold procCnt
  simp

theorem mem_nodeIds_of_retained (nodes : List WorkflowNode) (edges : List WorkflowEdge)
    (e : WorkflowEdge) (h : e ∈ retainedEdges nodes edges) :
    e.source ∈ nodeIds nodes ∧ e.target ∈ nodeIds nodes := by
  unfold retainedEdges at h
  rw [List.mem_filter] at h
  have h2 := h.2
  simp only [Bool.and_eq_true, decide_eq_true_eq] at h2
  exact h2

theorem lookup_append_pairs (l1 l2 : List (String × Int)) (x : String) :
    (l1 ++ l2).lookup x = ((l1.lookup x).or (l2.lookup x)) := by
  induction l1 with
  | nil => simp
  | cons hd tl ih =>
      obtain ⟨k, v⟩ := hd
      by_cases hk : x = k
      · simp [List.lookup_cons, hk]
      · have hbeq : (x == k) = false := by
          simp [hk]
        simp only [List.cons_append, List.lookup_cons, hbeq, ih]

theorem initInDegree_aux (nodes : List WorkflowNode) (acc : List (String × Int))
    (hn : (nodeIds nodes).Nodup)
    (hdisj : ∀ n ∈ nodes, acc.lookup n.id = none) :
    nodes.foldl (fun acc n => if (acc.lookup n.id).isSome then acc else acc ++ [(n.id, 0)]) acc =
      acc ++ nodes.map (fun n => (n.id, 0)) := by
  induction nodes generalizing acc with
  | nil => simp
  | cons n rest ih =>
      simp only [List.foldl_cons]
      have h1 : acc.lookup n.id = none := hdisj n (List.mem_cons_self _ _)
      rw [h1]
      simp only [Option.isSome_none, Bool.false_eq_true, if_false]
      have hn2 : (nodeIds rest).Nodup := by
        simp only [nodeIds, List.map_cons, List.nodup_cons] at hn
        exact hn.2
      have hnotmem : n.id ∉ nodeIds rest := by
        simp only [nodeIds, List.map_cons, List.nodup_cons] at hn
        exact hn.1
      have hd2 : ∀ m ∈ rest, (acc ++ [(n.id, 0)]).lookup m.id = none := by
        intro m hm
        rw [lookup_append_pairs, hdisj m (List.mem_cons_of_mem _ hm)]
        simp only [Option.none_or]
        have hne : (m.id == n.id) = false := by
          simp only [beq_eq_false_iff_ne, ne_eq]
          intro hh
          exact hnotmem (hh ▸ (by
            simp only [nodeIds, List.mem_map]
            exact ⟨m, hm, rfl⟩))
        simp only [List.lookup_cons, hne]
        rfl
      rw [ih (acc ++ [(n.id, 0)]) hn2 hd2]
      simp

theorem initInDegree_eq (nodes : List WorkflowNode) (hn : (nodeIds nodes).Nodup) :
    initInDegree nodes = nodes.map (fun n => (n.id, 0)) := by
  unfold initInDegree
  have h := initInDegree_aux nodes [] hn (by simp)
  simpa using h

theorem lookup_map_zero (nodes : List WorkflowNode) (x : String) (hx : x ∈ nodeIds nodes) :
    ((nodes.map (fun n => (n.id, (0 : Int)))).lookup x) = some 0 := by
  induction nodes with
  | nil => simp [nodeIds] at hx
  | cons n rest ih =>
      by_cases hk : x = n.id
      · simp [List.lookup_cons, hk]
      · have hbeq : (x == n.id) = false := by
          simp [hk]
        simp only [List.map_cons, List.lookup_cons, hbeq]
        refine ih ?_
        simp only [nodeIds, List.map_cons, List.mem_cons] at hx
        rcases hx with h | h
        · exact absurd h hk
        · exact h

theorem keys_inDegreeAfterEdges (nodes : List WorkflowNode) (edges : List WorkflowEdge)
    (hn : (nodeIds nodes).Nodup) :
    (inDegreeAfterEdges nodes edges).map Prod.fst = nodeIds nodes := by
  unfold inDegreeAfterEdges
  rw [keys_foldBump, initInDegree_eq nodes hn]
  simp [nodeIds]

theorem lookup_inDegreeAfterEdges (nodes : List WorkflowNode) (edges : List WorkflowEdge)
    (hn : (nodeIds nodes).Nodup) (x : String) (hx : x ∈ nodeIds nodes) :
    (inDegreeAfterEdges nodes edges).lookup x =
      some ((inCnt (retainedEdges nodes edges) x : Int)) := by
  unfold inDegreeAfterEdges
  rw [lookup_foldBump, initInDegree_eq nodes hn, lookup_map_zero nodes x hx]
  simp

theorem kinv_init (nodes : List WorkflowNode) (edges : List WorkflowEdge)
    (hn : (nodeIds nodes).Nodup) :
    KInv nodes edges
      (((inDegreeAfterEdges nodes edges).filter (fun p => p.2 = 0)).map (·.1))
      (inDegreeAfterEdges nodes edges) [] := by
  have hkeys : (inDegreeAfterEdges nodes edges).map Prod.fst = nodeIds nodes :=
    keys_inDegreeAfterEdges nodes edges hn
  have hknd : ((inDegreeAfterEdges nodes edges).map Prod.fst).Nodup := by
    rw [hkeys]
    exact hn
  have hqsub : (((inDegreeAfterEdges nodes edges).filter (fun p => p.2 = 0)).map (·.1)).Sublist
      ((inDegreeAfterEdges nodes edges).map Prod.fst) :=
    List.Sublist.map _ (List.filter_sublist _)
  refine ⟨hkeys, ?_, ?_, ?_, ?_, ?_, ?_, ?_⟩
  · simpa using hknd.sublist hqsub
  · intro x hx
    simp only [List.nil_append] at hx
    rw [← hkeys]
    exact hqsub.mem hx
  · intro x hx
    rw [lookup_inDegreeAfterEdges nodes edges hn x hx, procCnt_nil]
    simp
  · intro x hx _ hq
    by_contra hns
    push_neg at hns
    rw [procCnt_nil] at hns
    have hz : inCnt (retainedEdges nodes edges) x = 0 := by omega
    have hl := lookup_inDegreeAfterEdges nodes edges hn x hx
    rw [hz] at hl
    have hmem := mem_of_lookup_eq_some _ _ _ hl
    have hxq : x ∈ ((inDegreeAfterEdges nodes edges).filter (fun p => p.2 = 0)).map (·.1) := by
      simp only [List.mem_map]
      refine ⟨(x, (0 : Int)), ?_, rfl⟩
      rw [List.mem_filter]
      exact ⟨by simpa using hmem, by simp⟩
    exact hq hxq
  · intro x hx
    simp only [List.mem_map] at hx
    obtain ⟨p, hp, hpx⟩ := hx
    obtain ⟨a, b⟩ := p
    rw [List.mem_filter] at hp
    simp only at hpx
    subst hpx
    have hbz : b = 0 := by simpa using hp.2
    have hxid : a ∈ nodeIds nodes := by
      rw [← hkeys]
      exact List.mem_map_of_mem Prod.fst hp.1
    have hl1 := lookup_inDegreeAfterEdges nodes edges hn a hxid
    have hl2 : (inDegreeAfterEdges nodes edges).lookup a = some b :=
      lookup_eq_some_of_mem_of_nodup _ _ _ hknd hp.1
    rw [hl1, Option.some.injEq] at hl2
    rw [hbz] at hl2
    rw [procCnt_nil]
    omega
  · intro x hx
    simp at hx
  · intro e _ ht
    simp at ht

theorem kinv_step (nodes : List WorkflowNode) (edges : List WorkflowEdge)
    (u : String) (qs : List String) (deg : List (String × Int)) (sorted : List String)
    (hinv : KInv nodes edges (u :: qs) deg sorted) :
    KInv nodes edges
      (qs ++ (processSuccs (successorsOf nodes edges u) deg).2)
      (processSuccs (successorsOf nodes edges u) deg).1
      (sorted ++ [u]) := by
  obtain ⟨hkeys, hnd, hmem, hdegv, hcover, hqz, hsz, hord⟩ := hinv
  have hps : processSuccs (successorsOf nodes edges u) deg =
      ((successorsOf nodes edges u).foldl decrStep (deg, [])) := rfl
  have hLcnt : ∀ x, (successorsOf nodes edges u).count x =
      edgeCnt (retainedEdges nodes edges) u x :=
    fun x => count_successorsOf nodes edges u x
  have hlook2 : ∀ x, (processSuccs (successorsOf nodes edges u) deg).1.lookup x =
      (deg.lookup x).map (fun c => c - ((successorsOf nodes edges u).count x : Int)) := by
    intro x
    rw [hps, psFold_fst_lookup]
  have hcnt2 : ∀ x, (processSuccs (successorsOf nodes edges u) deg).2.count x =
      (if willFire deg (successorsOf nodes edges u) x then 1 else 0) := by
    intro x
    rw [hps, psFold_count]
    simp
  have hkeys2 : (processSuccs (successorsOf nodes edges u) deg).1.map Prod.fst =
      nodeIds nodes := by
    rw [hps, psFold_keys]
    exact hkeys
  have hwf_elim : ∀ x, willFire deg (successorsOf nodes edges u) x = true →
      ∃ c, deg.lookup x = some c ∧ 1 ≤ c ∧
        c ≤ (((successorsOf nodes edges u).count x : Int)) := by
    intro x hwf
    unfold willFire at hwf
    rcases h : deg.lookup x with _ | c
    · rw [h] at hwf
      simp at hwf
    · rw [h] at hwf
      simp at hwf
      exact ⟨c, rfl, hwf.1, hwf.2⟩
  have hmem_nq : ∀ x ∈ (processSuccs (successorsOf nodes edges u) deg).2,
      willFire deg (successorsOf nodes edges u) x = true := by
    intro x hx
    have hpos := List.count_pos_iff.mpr hx
    rw [hcnt2 x] at hpos
    cases h : willFire deg (successorsOf nodes edges u) x
    · rw [h] at hpos
      simp at hpos
    · rfl
  have hnq_id : ∀ x ∈ (processSuccs (successorsOf nodes edges u) deg).2,
      x ∈ nodeIds nodes := by
    intro x hx
    obtain ⟨c, hc, _, _⟩ := hwf_elim x (hmem_nq x hx)
    rw [← hkeys]
    exact mem_fst_of_lookup_eq_some deg x c hc
  have hu_not_sorted : u ∉ sorted := by
    intro hu
    have := List.nodup_middle.mp hnd
    rw [List.nodup_cons] at this
    exact this.1 (List.mem_append_left _ hu)
  have huz : inCnt (retainedEdges nodes edges) u = procCnt (retainedEdges nodes edges) sorted u :=
    hqz u (List.mem_cons_self u qs)
  have hproc_app : ∀ x, procCnt (retainedEdges nodes edges) (sorted ++ [u]) x =
      procCnt (retainedEdges nodes edges) sorted x + edgeCnt (retainedEdges nodes edges) u x :=
    fun x => procCnt_append_single _ _ _ _ hu_not_sorted
  have hwf_false : ∀ x ∈ nodeIds nodes,
      inCnt (retainedEdges nodes edges) x = procCnt (retainedEdges nodes edges) sorted x →
      willFire deg (successorsOf nodes edges u) x = false := by
    intro x hx heq
    have hzero : ((inCnt (retainedEdges nodes edges) x : Int) -
        (procCnt (retainedEdges nodes edges) sorted x : Int)) = 0 := by
      rw [heq]
      ring
    unfold willFire
    rw [hdegv x hx]
    simp [hzero]
  refine ⟨hkeys2, ?_, ?_, ?_, ?_, ?_, ?_, ?_⟩
  · rw [show (sorted ++ [u]) ++ (qs ++ (processSuccs (successorsOf nodes edges u) deg).2) =
        (sorted ++ u :: qs) ++ (processSuccs (successorsOf nodes edges u) deg).2 by
      simp [List.append_assoc]]
    rw [List.nodup_append]
    refine ⟨hnd, ?_, ?_⟩
    · rw [List.nodup_iff_count_le_one]
      intro a
      rw [hcnt2 a]
      split <;> omega
    · intro a ha hanq
      have haid : a ∈ nodeIds nodes := hmem a ha
      have haz : inCnt (retainedEdges nodes edges) a =
          procCnt (retainedEdges nodes edges) sorted a := by
        rcases List.mem_append.mp ha with h | h
        · exact hsz a h
        · exact hqz a h
      have hf := hwf_false a haid haz
      have ht := hmem_nq a hanq
      rw [ht] at hf
      simp at hf
  · intro x hx
    simp only [List.mem_append, List.mem_singleton] at hx
    rcases hx with (h | h) | (h | h)
    · exact hmem x (by simp [h])
    · exact hmem x (by simp [h])
    · exact hmem x (by simp [h])
    · exact hnq_id x h
  · intro x hx
    rw [hlook2 x, hdegv x hx]
    simp only [Option.map]
    rw [Option.some.injEq, hproc_app x, hLcnt x]
    push_cast
    ring
  · intro x hx hxs hxq
    simp only [List.mem_append, List.mem_singleton] at hxs hxq
    push_neg at hxs hxq
    obtain ⟨hxs1, hxu⟩ := hxs
    obtain ⟨hxq1, hxnq⟩ := hxq
    have hold := hcover x hx hxs1 (by simp [hxu, hxq1])
    rw [hproc_app x]
    by_contra hcon
    push_neg at hcon
    have hle := procCnt_le_inCnt (retainedEdges nodes edges) (sorted ++ [u]) x
    rw [hproc_app x] at hle
    have hwf : willFire deg (successorsOf nodes edges u) x = true := by
      unfold willFire
      rw [hdegv x hx]
      simp only [decide_eq_true_eq]
      rw [hLcnt x]
      constructor
      · omega
      · omega
    have hxin : x ∈ (processSuccs (successorsOf nodes edges u) deg).2 := by
      rw [← List.count_pos_iff, hcnt2 x, if_pos hwf]
      omega
    exact hxnq hxin
  · intro x hx
    rcases List.mem_append.mp hx with h | h
    · have hold := hqz x (List.mem_cons_of_mem _ h)
      have hle := procCnt_le_inCnt (retainedEdges nodes edges) (sorted ++ [u]) x
      rw [hproc_app x] at hle ⊢
      omega
    · have hwf := hmem_nq x h
      have hxid := hnq_id x h
      obtain ⟨c, hc, hc1, hc2⟩ := hwf_elim x hwf
      rw [hdegv x hxid, Option.some.injEq] at hc
      rw [hLcnt x] at hc2
      have hle := procCnt_le_inCnt (retainedEdges nodes edges) (sorted ++ [u]) x
      rw [hproc_app x] at hle ⊢
      omega
  · intro x hx
    rcases List.mem_append.mp hx with h | h
    · have hold := hsz x h
      have hle := procCnt_le_inCnt (retainedEdges nodes edges) (sorted ++ [u]) x
      rw [hproc_app x] at hle ⊢
      omega
    · have hxu : x = u := by simpa using h
      rw [hxu]
      have hle := procCnt_le_inCnt (retainedEdges nodes edges) (sorted ++ [u]) u
      rw [hproc_app u] at hle ⊢
      omega
  · intro e he ht
    rcases List.mem_append.mp ht with h | h
    · obtain ⟨hs, hidx⟩ := hord e he h
      refine ⟨List.mem_append_left _ hs, ?_⟩
      rw [List.indexOf_append_of_mem hs, List.indexOf_append_of_mem h]
      exact hidx
    · have htu : e.target = u := by simpa using h
      have hs : e.source ∈ sorted :=
        all_sources_in_of_procCnt_eq (retainedEdges nodes edges) sorted u huz e he htu
      refine ⟨List.mem_append_left _ hs, ?_⟩
      rw [List.indexOf_append_of_mem hs, htu, List.indexOf_append_of_not_mem hu_not_sorted]
      have hlt : sorted.indexOf e.source < sorted.length := List.indexOf_lt_length.mpr hs
      simp only [List.indexOf_cons_self]
      omega

theorem kahnLoop_inv (nodes : List WorkflowNode) (edges : List WorkflowEdge)
    (q : List String) (deg : List (String × Int)) (sorted : List String) :
    KInv nodes edges q deg sorted →
    KInv nodes edges []
      (kahnLoop (successorsOf nodes edges) q deg sorted).2
      (kahnLoop (successorsOf nodes edges) q deg sorted).1 := by
  induction q, deg, sorted using kahnLoop.induct (successorsOf nodes edges) with
  | case1 deg sorted =>
      intro hinv
      simpa only [kahnLoop] using hinv
  | case2 u qs deg sorted step ih =>
      intro hinv
      rw [kahnLoop]
      exact ih (kinv_step nodes edges u qs deg sorted hinv)

theorem cycle_of_pred (S : Finset String) (R : String → String → Prop)
    (hne : S.Nonempty) (hpred : ∀ x ∈ S, ∃ y ∈ S, R y x) :
    ∃ a, Relation.TransGen R a a := by
  classical
  choose g hg1 hg2 using hpred
  obtain ⟨x0, hx0⟩ := hne
  let f : {x // x ∈ S} → {x // x ∈ S} := fun p => ⟨g p.1 p.2, hg1 p.1 p.2⟩
  have hRf : ∀ p : {x // x ∈ S}, R (f p).1 p.1 := fun p => hg2 p.1 p.2
  have hiter : ∀ (n : Nat), 1 ≤ n → ∀ p : {x // x ∈ S},
      Relation.TransGen R (f^[n] p).1 p.1 := by
    intro n
    induction n with
    | zero =>
        intro h
        exact absurd h (by omega)
    | succ k ihk =>
        intro _ p
        by_cases hk : 1 ≤ k
        · have h1 := ihk hk (f p)
          have h2 : Relation.TransGen R (f p).1 p.1 := Relation.TransGen.single (hRf p)
          rw [Function.iterate_succ_apply]
          exact Relation.TransGen.trans h1 h2
        · have hk0 : k = 0 := by omega
          subst hk0
          simpa using Relation.TransGen.single (hRf p)
  have hmap : ∀ n ∈ Finset.range (S.card + 1), (f^[n] ⟨x0, hx0⟩).1 ∈ S :=
    fun n _ => (f^[n] ⟨x0, hx0⟩).2
  have hcard : S.card < (Finset.range (S.card + 1)).card := by
    simp
  obtain ⟨m, hm, n, hn, hmn, heq⟩ :=
    Finset.exists_ne_map_eq_of_card_lt_of_maps_to hcard hmap
  rcases lt_or_gt_of_ne hmn with hlt | hlt
  · have hsub : f^[n] ⟨x0, hx0⟩ = f^[n - m] (f^[m] ⟨x0, hx0⟩) := by
      rw [← Function.iterate_add_apply]
      congr 1
      omega
    have heq2 : f^[n - m] (f^[m] ⟨x0, hx0⟩) = f^[m] ⟨x0, hx0⟩ := by
      rw [← hsub]
      exact (Subtype.ext heq).symm
    have hres := hiter (n - m) (by omega) (f^[m] ⟨x0, hx0⟩)
    rw [heq2] at hres
    exact ⟨(f^[m] ⟨x0, hx0⟩).1, hres⟩
  · have hsub : f^[m] ⟨x0, hx0⟩ = f^[m - n] (f^[n] ⟨x0, hx0⟩) := by
      rw [← Function.iterate_add_apply]
      congr 1
      omega
    have heq2 : f^[m - n] (f^[n] ⟨x0, hx0⟩) = f^[n] ⟨x0, hx0⟩ := by
      rw [← hsub]
      exact Subtype.ext heq
    have hres := hiter (m - n) (by omega) (f^[n] ⟨x0, hx0⟩)
    rw [heq2] at hres
    exact ⟨(f^[n] ⟨x0, hx0⟩).1, hres⟩

theorem transGen_idx_lt (nodes : List WorkflowNode) (edges : List WorkflowEdge)
    (sortedF : List String)
    (hall : ∀ x ∈ nodeIds nodes, x ∈ sortedF)
    (hord : ∀ e ∈ retainedEdges nodes edges, e.target ∈ sortedF →
      e.source ∈ sortedF ∧ sortedF.indexOf e.source < sortedF.indexOf e.target)
    {a b : String} (h : Relation.TransGen (EdgeRel (retainedEdges nodes edges)) a b) :
    sortedF.indexOf a < sortedF.indexOf b := by
  induction h with
  | single hR =>
      obtain ⟨e, he, hsrc, htgt⟩ := hR
      subst hsrc
      subst htgt
      exact (hord e he (hall _ (mem_nodeIds_of_retained nodes edges e he).2)).2
  | tail h1 hR ih =>
      obtain ⟨e, he, hsrc, htgt⟩ := hR
      subst hsrc
      subst htgt
      exact lt_trans ih (hord e he (hall _ (mem_nodeIds_of_retained nodes edges e he).2)).2

theorem kahnRun_inv (nodes : List WorkflowNode) (edges : List WorkflowEdge)
    (hn : (nodeIds nodes).Nodup) :
    KInv nodes edges [] (kahnRun nodes edges).2 (kahnRun nodes edges).1 :=
  kahnLoop_inv nodes edges _ _ _ (kinv_init nodes edges hn)

theorem kahn_complete (nodes : List WorkflowNode) (edges : List WorkflowEdge)
    (hn : (nodeIds nodes).Nodup)
    (hnc : ¬ HasCycle (retainedEdges nodes edges)) :
    ∀ x ∈ nodeIds nodes, x ∈ (kahnRun nodes edges).1 := by
  by_contra hcon
  push_neg at hcon
  obtain ⟨x0, hx0, hx0n⟩ := hcon
  have hfin := kahnRun_inv nodes edges hn
  apply hnc
  apply cycle_of_pred
    (((nodeIds nodes).filter (fun x => decide (x ∉ (kahnRun nodes edges).1))).toFinset)
    (EdgeRel (retainedEdges nodes edges))
  · exact ⟨x0, by simp [List.mem_toFinset, List.mem_filter, hx0, hx0n]⟩
  · intro x hx
    rw [List.mem_toFinset, List.mem_filter] at hx
    obtain ⟨hxid, hxns⟩ := hx
    rw [decide_eq_true_eq] at hxns
    have hcov := hfin.cover x hxid hxns (by simp)
    obtain ⟨e, he, htgt, hsrc⟩ := exists_unprocessed_of_lt _ _ _ hcov
    refine ⟨e.source, ?_, ⟨e, he, rfl, htgt⟩⟩
    rw [List.mem_toFinset, List.mem_filter]
    exact ⟨(mem_nodeIds_of_retained nodes edges e he).1, by simpa using hsrc⟩

theorem errIds_char (nodes : List WorkflowNode) (edges : List WorkflowEdge)
    (hn : (nodeIds nodes).Nodup) (x : String) :
    x ∈ (((kahnRun nodes edges).2.filter (fun p => 0 < p.2)).map (·.1)) ↔
      x ∈ nodeIds nodes ∧ 0 < residualInDegree nodes edges x := by
  have hfin := kahnRun_inv nodes edges hn
  have hknd : ((kahnRun nodes edges).2.map Prod.fst).Nodup := by
    rw [hfin.keys]
    exact hn
  constructor
  · intro hx
    simp only [List.mem_map] at hx
    obtain ⟨p, hp, hpx⟩ := hx
    obtain ⟨a, b⟩ := p
    rw [List.mem_filter] at hp
    simp only at hpx
    subst hpx
    have hbpos : (0 : Int) < b := by simpa using hp.2
    have hl := lookup_eq_some_of_mem_of_nodup _ _ _ hknd hp.1
    constructor
    · rw [← hfin.keys]
      exact List.mem_map_of_mem Prod.fst hp.1
    · unfold residualInDegree
      rw [hl]
      simpa using hbpos
  · rintro ⟨hxid, hres⟩
    have hl := hfin.degVal x hxid
    unfold residualInDegree at hres
    rw [hl] at hres
    simp only [Option.getD_some] at hres
    have hmem := mem_of_lookup_eq_some _ _ _ hl
    simp only [List.mem_map]
    refine ⟨(x, (inCnt (retainedEdges nodes edges) x : Int) -
      (procCnt (retainedEdges nodes edges) (kahnRun nodes edges).1 x : Int)), ?_, rfl⟩
    rw [List.mem_filter]
    exact ⟨hmem, by simpa using hres⟩

/-- C1: after dropping edges with unknown endpoints, an acyclic retained edge set
makes topological_sort succeed with a permutation of all step ids in which every
retained edge goes forward, while a cycle makes it fail carrying exactly the ids
of positive residual in-degree. -/
theorem C1_topological_sort (nodes : List WorkflowNode) (edges : List WorkflowEdge)
    (hn : (nodeIds nodes).Nodup) :
    (¬ HasCycle (retainedEdges nodes edges) →
      ∃ order, topological_sort nodes edges = .ok order ∧
        order.Perm (nodeIds nodes) ∧
        ∀ e ∈ retainedEdges nodes edges,
          order.indexOf e.source < order.indexOf e.target) ∧
    (HasCycle (retainedEdges nodes edges) →
      ∃ errIds, topological_sort nodes edges = .error errIds ∧
        ∀ x, x ∈ errIds ↔ x ∈ nodeIds nodes ∧ 0 < residualInDegree nodes edges x) := by
  have hfin := kahnRun_inv nodes edges hn
  have hndF : (kahnRun nodes edges).1.Nodup := by
    have h := hfin.nodupSQ
    simpa using h
  have hsubF : ∀ x ∈ (kahnRun nodes edges).1, x ∈ nodeIds nodes := by
    intro x hx
    exact hfin.memSQ x (by simpa using hx)
  constructor
  · intro hnc
    have hall := kahn_complete nodes edges hn hnc
    have hperm : (kahnRun nodes edges).1.Perm (nodeIds nodes) :=
      List.Subperm.antisymm
        (List.subperm_of_subset hndF (fun x hx => hsubF x hx))
        (List.subperm_of_subset hn (fun x hx => hall x hx))
    have hlen : (kahnRun nodes edges).1.length = nodes.length := by
      rw [hperm.length_eq]
      simp [nodeIds]
    refine ⟨(kahnRun nodes edges).1, ?_, hperm, ?_⟩
    · simp only [topological_sort]
      rw [if_pos hlen]
    · intro e he
      have htgt : e.target ∈ (kahnRun nodes edges).1 :=
        hall _ (mem_nodeIds_of_retained nodes edges e he).2
      exact (hfin.ordered e he htgt).2
  · intro hcyc
    obtain ⟨a, ha⟩ := hcyc
    have hnotall : ¬ (∀ x ∈ nodeIds nodes, x ∈ (kahnRun nodes edges).1) := by
      intro hall
      have hself := transGen_idx_lt nodes edges (kahnRun nodes edges).1 hall
        (fun e he htgt => hfin.ordered e he htgt) ha
      omega
    push_neg at hnotall
    obtain ⟨x0, hx0, hx0n⟩ := hnotall
    have hlen : (kahnRun nodes edges).1.length < nodes.length := by
      have h1 : (kahnRun nodes edges).1.toFinset ⊆ (nodeIds nodes).toFinset := by
        intro x hx
        rw [List.mem_toFinset] at hx ⊢
        exact hsubF x hx
      have hss : (kahnRun nodes edges).1.toFinset ⊂ (nodeIds nodes).toFinset :=
        (Finset.ssubset_iff_of_subset h1).mpr
          ⟨x0, List.mem_toFinset.mpr hx0, fun hc => hx0n (List.mem_toFinset.mp hc)⟩
      have hcard := Finset.card_lt_card hss
      rw [List.toFinset_card_of_nodup hndF, List.toFinset_card_of_nodup hn] at hcard
      simpa [nodeIds] using hcard
    refine ⟨(((kahnRun nodes edges).2.filter (fun p => 0 < p.2)).map (·.1)), ?_,
      fun x => errIds_char nodes edges hn x⟩
    simp only [topological_sort]
    rw [if_neg (by omega)]

theorem C1_topological_sort_witness :
    (nodeIds [nA, nB]).Nodup ∧
    ((¬ HasCycle (retainedEdges [nA, nB] [⟨"a", "b"⟩, ⟨"b", "a"⟩]) →
      ∃ order, topological_sort [nA, nB] [⟨"a", "b"⟩, ⟨"b", "a"⟩] = .ok order ∧
        order.Perm (nodeIds [nA, nB]) ∧
        ∀ e ∈ retainedEdges [nA, nB] [⟨"a", "b"⟩, ⟨"b", "a"⟩],
          order.indexOf e.source < order.indexOf e.target) ∧
    (HasCycle (retainedEdges [nA, nB] [⟨"a", "b"⟩, ⟨"b", "a"⟩]) →
      ∃ errIds, topological_sort [nA, nB] [⟨"a", "b"⟩, ⟨"b", "a"⟩] = .error errIds ∧
        ∀ x, x ∈ errIds ↔ x ∈ nodeIds [nA, nB] ∧
          0 < residualInDegree [nA, nB] [⟨"a", "b"⟩, ⟨"b", "a"⟩] x)) :=
  ⟨by decide, C1_topological_sort [nA, nB] [⟨"a", "b"⟩, ⟨"b", "a"⟩] (by decide)⟩
